import Mathlib

/- Verification development for the frame-sampling and comparison-set
construction core of the vardautomation repository
(src/vardautomation/comp.py).

The Python source is shallowly embedded as executable Lean definitions:

* `_select_samples_with_picture_types` (comp.py lines 273-313) together with
  its helper `_rand_num_frames` (lines 316-320) is modelled as a small-step
  state machine `selStep` over `SelState`, driven by a stream `g : ℕ → ℕ` of
  outputs of the random number generator (each `g pos` models one call of
  `random.randrange(start=0, stop=num_frames)`) and executed with fuel.
* `make_comps` (lines 106-270) is modelled as `make_comps`, a pure function
  from its inputs plus an explicit environment (pre-existing directories,
  availability of the external magick tool, the RNG stream) to an
  `Except`-style result together with an ordered trace of observable events
  (sampling, directory creation, frame extraction, diffing, uploading).
* the slow.pics multipart payload construction (lines 237-251) is modelled by
  `buildFields` over Python-dict association lists with insertion-order
  update semantics (`dictSet`).

Ghost fields (`testedA`) record which frame indices had their picture type
inspected, and with how many failed attempts the current sample slot stood at
that moment; they do not influence control flow. -/

namespace Vard

/-! ## String helpers: Python str.upper -/

/-- Model of Python `str.upper` (adequate for the ASCII picture-type tags
handled by the program): uppercase every character. -/
def strUpper (s : String) : String :=
  ⟨s.data.map Char.toUpper⟩

theorem char_toUpper_idem (c : Char) : c.toUpper.toUpper = c.toUpper := by
  show (if c.toUpper.toNat ≥ 97 ∧ c.toUpper.toNat ≤ 122 then
      Char.ofNat (c.toUpper.toNat - 32) else c.toUpper) = c.toUpper
  by_cases h : c.toNat ≥ 97 ∧ c.toNat ≤ 122
  · have hup : c.toUpper = Char.ofNat (c.toNat - 32) := by
      show (if c.toNat ≥ 97 ∧ c.toNat ≤ 122 then Char.ofNat (c.toNat - 32) else c) = _
      rw [if_pos h]
    have hval : (Char.ofNat (c.toNat - 32)).toNat = c.toNat - 32 := by
      have hv : (c.toNat - 32).isValidChar := by
        unfold Nat.isValidChar
        left; omega
      unfold Char.ofNat
      rw [dif_pos hv]
      unfold Char.ofNatAux
      rfl
    rw [hup, hval]
    have hno : ¬(c.toNat - 32 ≥ 97 ∧ c.toNat - 32 ≤ 122) := by omega
    rw [if_neg hno]
  · have hup : c.toUpper = c := by
      show (if c.toNat ≥ 97 ∧ c.toNat ≤ 122 then Char.ofNat (c.toNat - 32) else c) = _
      rw [if_neg h]
    rw [hup, if_neg h]

theorem strUpper_idem (s : String) : strUpper (strUpper s) = strUpper s := by
  unfold strUpper
  cases s with
  | mk data =>
    simp only [List.map_map]
    congr 1
    exact List.map_congr_left fun c _ => char_toUpper_idem c

/-- Case-insensitive membership of a picture-type tag in a filter, the
reading used by the specification: the tag matches some filter entry up to
letter case of both sides. -/
def caseInsensMem (tag : String) (filter : List String) : Prop :=
  ∃ p ∈ filter, strUpper tag = strUpper p

/-! ## The constrained sample selector, comp.py lines 273-320

`_select_samples_with_picture_types(clips, num_frames, k, picture_types)`:

    samples: Set[int] = set()
    p_type = [p.upper() for p in picture_types]
    _max_attempts = 0
    _rnum_checked: Set[int] = set()
    while len(samples) < k:
        _attempts = 0
        while True:
            if len(_rnum_checked) < num_frames:
                rnum = _rand_num_frames(_rnum_checked, partial(random.randrange, start=0, stop=num_frames))
                _rnum_checked.add(rnum)
            else:
                Status.fail(... not enough ..., exception=ValueError)
            if all(get_prop(f, '_PictType', bytes).decode('utf-8') in p_type for f in ...frames of all clips at rnum...):
                break
            _attempts += 1
            _max_attempts += 1
            if _attempts > _MAX_ATTEMPTS_PER_PICTURE_TYPE:
                Status.warn(...)
                break
        if _max_attempts > (curr_max_att := _MAX_ATTEMPTS_PER_PICTURE_TYPE * k):
            Status.fail(..., exception=RecursionError)
        if _attempts < _MAX_ATTEMPTS_PER_PICTURE_TYPE:
            samples.add(rnum)
    return samples
-/

/-- comp.py line 28. -/
def MAX_ATTEMPTS_PER_PICTURE_TYPE : ℕ := 50

/-- The data of one video clip that the sampling core inspects: its frame
count (`clip.num_frames`) and the decoded `_PictType` property of each frame
(`get_prop(f, '_PictType', bytes).decode('utf-8')`). -/
structure Clip where
  num_frames : ℕ
  pictType : ℕ → String

/-- Picture-type acceptance test, comp.py lines 292-295: every clip's frame
at index `rnum` has its tag in the (already uppercased) list `p_type`. -/
def matchesPTypes (clips : List Clip) (p_type : List String) (rnum : ℕ) : Bool :=
  clips.all fun c => p_type.contains (c.pictType rnum)

/-- Model of `_rand_num_frames(checked, rand_func)`, comp.py lines 316-320:
draw from the stream (successive outputs of `rand_func`, starting at stream
position `pos`) until a value outside `checked` is produced; return that
value and the next stream position.  `fuel` bounds the number of draws (the
Python loop would not terminate on a stream that never leaves `checked`). -/
def rand_num_frames (checked : Finset ℕ) (rand_func : ℕ → ℕ) :
    ℕ → ℕ → Option (ℕ × ℕ)
  | _, 0 => none
  | pos, fuel + 1 =>
    if rand_func pos ∈ checked then rand_num_frames checked rand_func (pos + 1) fuel
    else some (rand_func pos, pos + 1)

/-- Control position inside `_select_samples_with_picture_types`. -/
inductive SelPhase where
  /-- top of `while len(samples) < k` (line 279) -/
  | outer : SelPhase
  /-- top of the inner `while True` body (lines 282-289) -/
  | inner : SelPhase
  /-- inside the `_rand_num_frames` loop (lines 316-320) -/
  | draw : SelPhase
  /-- about to evaluate the picture-type test on `rnum` (lines 292-295) -/
  | test (rnum : ℕ) : SelPhase
  /-- right after the inner loop broke with last drawn index `rnum`
  (lines 307-311) -/
  | post (rnum : ℕ) : SelPhase
  /-- function returned `samples` (line 313) -/
  | done (samples : Finset ℕ) : SelPhase
  /-- a `Status.fail` call raised -/
  | failed (e : Bool) : SelPhase
  deriving DecidableEq

/-- Error discriminant for `SelPhase.failed`: `false` is the `ValueError` of
line 289 (not enough frames of the requested picture types), `true` the
`RecursionError` of line 308 (global attempt budget exceeded). -/
def selErrMaxAtt : Bool := true

/-- Error discriminant for the line 289 `ValueError`. -/
def selErrNotEnough : Bool := false

/-- Machine state for `_select_samples_with_picture_types`.  `testedA` is a
ghost trace of `(rnum, attempts)` pairs: each index whose picture type was
inspected, with the value of `_attempts` at that moment. -/
structure SelState where
  samples : Finset ℕ
  maxAtt : ℕ
  checked : Finset ℕ
  attempts : ℕ
  pos : ℕ
  testedA : List (ℕ × ℕ)
  phase : SelPhase
  deriving DecidableEq

/-- Initial state of the selector (comp.py lines 274-278). -/
def selInit : SelState :=
  ⟨∅, 0, ∅, 0, 0, [], .outer⟩

/-- One small step of `_select_samples_with_picture_types` over clips of
length `L`, requested count `k`, picture-type test `pOK` and RNG stream
`g`. -/
def selStep (L k : ℕ) (pOK : ℕ → Bool) (g : ℕ → ℕ) (s : SelState) : SelState :=
  match s.phase with
  | .outer =>
    if s.samples.card < k then { s with attempts := 0, phase := .inner }
    else { s with phase := .done s.samples }
  | .inner =>
    if s.checked.card < L then { s with phase := .draw }
    else { s with phase := .failed selErrNotEnough }
  | .draw =>
    if g s.pos ∈ s.checked then { s with pos := s.pos + 1 }
    else
      { s with pos := s.pos + 1, checked := insert (g s.pos) s.checked,
               testedA := s.testedA ++ [(g s.pos, s.attempts)],
               phase := .test (g s.pos) }
  | .test rnum =>
    if pOK rnum then { s with phase := .post rnum }
    else
      if s.attempts + 1 > MAX_ATTEMPTS_PER_PICTURE_TYPE then
        { s with attempts := s.attempts + 1, maxAtt := s.maxAtt + 1, phase := .post rnum }
      else
        { s with attempts := s.attempts + 1, maxAtt := s.maxAtt + 1, phase := .inner }
  | .post rnum =>
    if s.maxAtt > MAX_ATTEMPTS_PER_PICTURE_TYPE * k then
      { s with phase := .failed selErrMaxAtt }
    else
      if s.attempts < MAX_ATTEMPTS_PER_PICTURE_TYPE then
        { s with samples := insert rnum s.samples, phase := .outer }
      else
        { s with phase := .outer }
  | .done _ => s
  | .failed _ => s

/-- Run the selector machine for `fuel` steps from the initial state. -/
def selRun (L k : ℕ) (pOK : ℕ → Bool) (g : ℕ → ℕ) (fuel : ℕ) : SelState :=
  (selStep L k pOK g)^[fuel] selInit

/-- Outcome of `_select_samples_with_picture_types`. -/
inductive SelResult where
  | ok (samples : Finset ℕ)
  | notEnough
  | maxAttempts
  | outOfFuel
  deriving DecidableEq

/-- Read the outcome off a machine state. -/
def selFinal (st : SelState) : SelResult :=
  match st.phase with
  | .done s => .ok s
  | .failed e => if e then .maxAttempts else .notEnough
  | _ => .outOfFuel

/-- Model of `_select_samples_with_picture_types(clips, num_frames, k,
picture_types)` (comp.py line 273): uppercase the filter (line 275), then run
the retry machine. -/
def select_samples_with_picture_types (clips : List Clip) (num_frames k : ℕ)
    (picture_types : List String) (g : ℕ → ℕ) (fuel : ℕ) : SelResult :=
  selFinal (selRun num_frames k (matchesPTypes clips (picture_types.map strUpper)) g fuel)

/-! ## Selector invariants -/

/-- Match invariant: every member of `samples` passed the picture-type test;
at `post rnum` with at most 50 failed attempts the drawn index passed the
test; any returned set consists of passing indices only. -/
def SelInvMatch (pOK : ℕ → Bool) (s : SelState) : Prop :=
  (∀ x ∈ s.samples, pOK x = true) ∧
  (∀ r, s.phase = .post r → s.attempts ≤ MAX_ATTEMPTS_PER_PICTURE_TYPE → pOK r = true) ∧
  (∀ t, s.phase = .done t → ∀ x ∈ t, pOK x = true)

/-- Cardinality invariant: `samples` never exceeds `k` elements, is strictly
below `k` while a sample slot is being worked on, and any returned set has
exactly `k` elements. -/
def SelInvCard (k : ℕ) (s : SelState) : Prop :=
  s.samples.card ≤ k ∧
  ((s.phase = .inner ∨ s.phase = .draw ∨ (∃ r, s.phase = .test r) ∨
    (∃ r, s.phase = .post r)) → s.samples.card < k) ∧
  (∀ t, s.phase = .done t → t.card = k)

/-- No-retest invariant: the ghost trace of tested indices has no duplicate,
and every tested index is recorded in the global checked set. -/
def SelInvTested (s : SelState) : Prop :=
  (s.testedA.map Prod.fst).Nodup ∧
  (∀ x ∈ s.testedA.map Prod.fst, x ∈ s.checked)

/-- Containment invariant: accepted samples and the pending drawn index all
live in the checked set, as does any returned set. -/
def SelInvSub (s : SelState) : Prop :=
  s.samples ⊆ s.checked ∧
  (∀ r, s.phase = .test r ∨ s.phase = .post r → r ∈ s.checked) ∧
  (∀ t, s.phase = .done t → t ⊆ s.checked)

theorem selStep_match {L k : ℕ} {pOK : ℕ → Bool} {g : ℕ → ℕ} {s : SelState}
    (hs : SelInvMatch pOK s) : SelInvMatch pOK (selStep L k pOK g s) := by
  obtain ⟨hA, hB, hC⟩ := hs
  unfold SelInvMatch
  cases hp : s.phase with
  | outer =>
    by_cases hlt : s.samples.card < k
    · simp only [selStep, hp, if_pos hlt]
      refine ⟨?_, ?_, ?_⟩
      · exact hA
      · intro r h; cases h
      · intro t h; cases h
    · simp only [selStep, hp, if_neg hlt]
      refine ⟨?_, ?_, ?_⟩
      · exact hA
      · intro r h; cases h
      intro t h
      cases h
      exact hA
  | inner =>
    by_cases hlt : s.checked.card < L
    · simp only [selStep, hp, if_pos hlt]
      refine ⟨?_, ?_, ?_⟩
      · exact hA
      · intro r h; cases h
      · intro t h; cases h
    · simp only [selStep, hp, if_neg hlt]
      refine ⟨?_, ?_, ?_⟩
      · exact hA
      · intro r h; cases h
      · intro t h; cases h
  | draw =>
    by_cases hin : g s.pos ∈ s.checked
    · simp only [selStep, hp, if_pos hin]
      refine ⟨?_, ?_, ?_⟩
      · exact hA
      · intro r h; cases h
      · intro t h; cases h
    · simp only [selStep, hp, if_neg hin]
      refine ⟨?_, ?_, ?_⟩
      · exact hA
      · intro r h; cases h
      · intro t h; cases h
  | test rnum =>
    by_cases hok : pOK rnum = true
    · simp only [selStep, hp, if_pos hok]
      refine ⟨?_, ?_, ?_⟩
      · exact hA
      · intro r h hle
        cases h
        exact hok
      · intro t h; cases h
    · simp only [selStep, hp, if_neg hok]
      by_cases hatt : s.attempts + 1 > MAX_ATTEMPTS_PER_PICTURE_TYPE
      · simp only [if_pos hatt]
        refine ⟨?_, ?_, ?_⟩
        · exact hA
        · intro r h hle
          cases h
          omega
        · intro t h; cases h
      · simp only [if_neg hatt]
        refine ⟨?_, ?_, ?_⟩
        · exact hA
        · intro r h; cases h
        · intro t h; cases h
  | post rnum =>
    by_cases hmax : s.maxAtt > MAX_ATTEMPTS_PER_PICTURE_TYPE * k
    · simp only [selStep, hp, if_pos hmax]
      refine ⟨?_, ?_, ?_⟩
      · exact hA
      · intro r h; cases h
      · intro t h; cases h
    · simp only [selStep, hp, if_neg hmax]
      by_cases hacc : s.attempts < MAX_ATTEMPTS_PER_PICTURE_TYPE
      · simp only [if_pos hacc]
        refine ⟨?_, ?_, ?_⟩
        · intro x hx
          rcases Finset.mem_insert.mp hx with hx | hx
          · rw [hx]
            exact hB rnum hp (by omega)
          · exact hA x hx
        · intro r h; cases h
        · intro t h; cases h
      · simp only [if_neg hacc]
        refine ⟨?_, ?_, ?_⟩
        · exact hA
        · intro r h; cases h
        · intro t h; cases h
  | done t =>
    simp only [selStep, hp]
    refine ⟨?_, ?_, ?_⟩
    · exact hA
    · intro r h; cases h
    intro t' h
    cases h
    exact hC t hp
  | failed e =>
    simp only [selStep, hp]
    refine ⟨?_, ?_, ?_⟩
    · exact hA
    · intro r h; cases h
    · intro t h; cases h

theorem selStep_card {L k : ℕ} {pOK : ℕ → Bool} {g : ℕ → ℕ} {s : SelState}
    (hs : SelInvCard k s) : SelInvCard k (selStep L k pOK g s) := by
  obtain ⟨hD, hE, hK⟩ := hs
  unfold SelInvCard
  cases hp : s.phase with
  | outer =>
    by_cases hlt : s.samples.card < k
    · simp only [selStep, hp, if_pos hlt]
      refine ⟨?_, ?_, ?_⟩
      · exact hD
      · exact fun _ => hlt
      · intro t h; cases h
    · simp only [selStep, hp, if_neg hlt]
      refine ⟨?_, ?_, ?_⟩
      · exact hD
      · intro h; rcases h with h | h | ⟨r, h⟩ | ⟨r, h⟩ <;> cases h
      intro t h
      cases h
      omega
  | inner =>
    have hlt : s.samples.card < k := hE (Or.inl hp)
    by_cases hc : s.checked.card < L
    · simp only [selStep, hp, if_pos hc]
      refine ⟨?_, ?_, ?_⟩
      · exact hD
      · exact fun _ => hlt
      · intro t h; cases h
    · simp only [selStep, hp, if_neg hc]
      refine ⟨?_, ?_, ?_⟩
      · exact hD
      · exact fun _ => hlt
      · intro t h; cases h
  | draw =>
    have hlt : s.samples.card < k := hE (Or.inr (Or.inl hp))
    by_cases hin : g s.pos ∈ s.checked
    · simp only [selStep, hp, if_pos hin]
      refine ⟨?_, ?_, ?_⟩
      · exact hD
      · exact fun _ => hlt
      · intro t h; cases h
    · simp only [selStep, hp, if_neg hin]
      refine ⟨?_, ?_, ?_⟩
      · exact hD
      · exact fun _ => hlt
      · intro t h; cases h
  | test rnum =>
    have hlt : s.samples.card < k := hE (Or.inr (Or.inr (Or.inl ⟨rnum, hp⟩)))
    by_cases hok : pOK rnum = true
    · simp only [selStep, hp, if_pos hok]
      refine ⟨?_, ?_, ?_⟩
      · exact hD
      · exact fun _ => hlt
      · intro t h; cases h
    · simp only [selStep, hp, if_neg hok]
      by_cases hatt : s.attempts + 1 > MAX_ATTEMPTS_PER_PICTURE_TYPE
      · simp only [if_pos hatt]
        refine ⟨?_, ?_, ?_⟩
        · exact hD
        · exact fun _ => hlt
        · intro t h; cases h
      · simp only [if_neg hatt]
        refine ⟨?_, ?_, ?_⟩
        · exact hD
        · exact fun _ => hlt
        · intro t h; cases h
  | post rnum =>
    have hlt : s.samples.card < k := hE (Or.inr (Or.inr (Or.inr ⟨rnum, hp⟩)))
    by_cases hmax : s.maxAtt > MAX_ATTEMPTS_PER_PICTURE_TYPE * k
    · simp only [selStep, hp, if_pos hmax]
      refine ⟨?_, ?_, ?_⟩
      · exact hD
      · intro h; rcases h with h | h | ⟨r, h⟩ | ⟨r, h⟩ <;> cases h
      · intro t h; cases h
    · simp only [selStep, hp, if_neg hmax]
      by_cases hacc : s.attempts < MAX_ATTEMPTS_PER_PICTURE_TYPE
      · simp only [if_pos hacc]
        refine ⟨?_, ?_, ?_⟩
        · calc (insert rnum s.samples).card ≤ s.samples.card + 1 := Finset.card_insert_le _ _
            _ ≤ k := by omega
        · intro h; rcases h with h | h | ⟨r, h⟩ | ⟨r, h⟩ <;> cases h
        · intro t h; cases h
      · simp only [if_neg hacc]
        refine ⟨?_, ?_, ?_⟩
        · exact hD
        · intro h; rcases h with h | h | ⟨r, h⟩ | ⟨r, h⟩ <;> cases h
        · intro t h; cases h
  | done t =>
    simp only [selStep, hp]
    refine ⟨?_, ?_, ?_⟩
    · exact hD
    · intro h; rcases h with h | h | ⟨r, h⟩ | ⟨r, h⟩ <;> cases h
    · intro t' h
      cases h
      exact hK t hp
  | failed e =>
    simp only [selStep, hp]
    refine ⟨?_, ?_, ?_⟩
    · exact hD
    · intro h; rcases h with h | h | ⟨r, h⟩ | ⟨r, h⟩ <;> cases h
    · intro t' h; cases h

theorem selStep_tested {L k : ℕ} {pOK : ℕ → Bool} {g : ℕ → ℕ} {s : SelState}
    (hs : SelInvTested s) : SelInvTested (selStep L k pOK g s) := by
  obtain ⟨hF, hG⟩ := hs
  unfold SelInvTested
  cases hp : s.phase with
  | outer =>
    by_cases hlt : s.samples.card < k
    · simp only [selStep, hp, if_pos hlt]; exact ⟨hF, hG⟩
    · simp only [selStep, hp, if_neg hlt]; exact ⟨hF, hG⟩
  | inner =>
    by_cases hc : s.checked.card < L
    · simp only [selStep, hp, if_pos hc]; exact ⟨hF, hG⟩
    · simp only [selStep, hp, if_neg hc]; exact ⟨hF, hG⟩
  | draw =>
    by_cases hin : g s.pos ∈ s.checked
    · simp only [selStep, hp, if_pos hin]; exact ⟨hF, hG⟩
    · simp only [selStep, hp, if_neg hin]
      constructor
      · simp only [List.map_append, List.map_cons, List.map_nil]
        rw [List.nodup_append]
        refine ⟨hF, List.nodup_singleton _, ?_⟩
        intro x hx hx'
        rw [List.mem_singleton] at hx'
        exact hin (hx' ▸ hG x hx)
      · intro x hx
        simp only [List.map_append, List.map_cons, List.map_nil, List.mem_append,
          List.mem_singleton] at hx
        rcases hx with hx | hx
        · exact Finset.mem_insert_of_mem (hG x hx)
        · subst hx
          exact Finset.mem_insert_self _ _
  | test rnum =>
    by_cases hok : pOK rnum = true
    · simp only [selStep, hp, if_pos hok]; exact ⟨hF, hG⟩
    · simp only [selStep, hp, if_neg hok]
      by_cases hatt : s.attempts + 1 > MAX_ATTEMPTS_PER_PICTURE_TYPE
      · simp only [if_pos hatt]; exact ⟨hF, hG⟩
      · simp only [if_neg hatt]; exact ⟨hF, hG⟩
  | post rnum =>
    by_cases hmax : s.maxAtt > MAX_ATTEMPTS_PER_PICTURE_TYPE * k
    · simp only [selStep, hp, if_pos hmax]; exact ⟨hF, hG⟩
    · simp only [selStep, hp, if_neg hmax]
      by_cases hacc : s.attempts < MAX_ATTEMPTS_PER_PICTURE_TYPE
      · simp only [if_pos hacc]; exact ⟨hF, hG⟩
      · simp only [if_neg hacc]; exact ⟨hF, hG⟩
  | done t =>
    simp only [selStep, hp]; exact ⟨hF, hG⟩
  | failed e =>
    simp only [selStep, hp]; exact ⟨hF, hG⟩

theorem selStep_sub {L k : ℕ} {pOK : ℕ → Bool} {g : ℕ → ℕ} {s : SelState}
    (hs : SelInvSub s) : SelInvSub (selStep L k pOK g s) := by
  obtain ⟨hH, hI, hJ⟩ := hs
  unfold SelInvSub
  cases hp : s.phase with
  | outer =>
    by_cases hlt : s.samples.card < k
    · simp only [selStep, hp, if_pos hlt]
      refine ⟨?_, ?_, ?_⟩
      · exact hH
      · intro r h; rcases h with h | h <;> cases h
      · intro t h; cases h
    · simp only [selStep, hp, if_neg hlt]
      refine ⟨?_, ?_, ?_⟩
      · exact hH
      · intro r h; rcases h with h | h <;> cases h
      intro t h
      cases h
      exact hH
  | inner =>
    by_cases hc : s.checked.card < L
    · simp only [selStep, hp, if_pos hc]
      refine ⟨?_, ?_, ?_⟩
      · exact hH
      · intro r h; rcases h with h | h <;> cases h
      · intro t h; cases h
    · simp only [selStep, hp, if_neg hc]
      refine ⟨?_, ?_, ?_⟩
      · exact hH
      · intro r h; rcases h with h | h <;> cases h
      · intro t h; cases h
  | draw =>
    by_cases hin : g s.pos ∈ s.checked
    · simp only [selStep, hp, if_pos hin]
      refine ⟨?_, ?_, ?_⟩
      · exact hH
      · intro r h; rcases h with h | h <;> cases h
      · intro t h; cases h
    · simp only [selStep, hp, if_neg hin]
      refine ⟨?_, ?_, ?_⟩
      · exact hH.trans (Finset.subset_insert _ _)
      · rintro r (h | h)
        · cases h
          exact Finset.mem_insert_self _ _
        · cases h
      · intro t h; cases h
  | test rnum =>
    have hr : rnum ∈ s.checked := hI rnum (Or.inl hp)
    by_cases hok : pOK rnum = true
    · simp only [selStep, hp, if_pos hok]
      refine ⟨?_, ?_, ?_⟩
      · exact hH
      · rintro r (h | h)
        · cases h
        · cases h
          exact hr
      · intro t h; cases h
    · simp only [selStep, hp, if_neg hok]
      by_cases hatt : s.attempts + 1 > MAX_ATTEMPTS_PER_PICTURE_TYPE
      · simp only [if_pos hatt]
        refine ⟨?_, ?_, ?_⟩
        · exact hH
        · rintro r (h | h)
          · cases h
          · cases h
            exact hr
        · intro t h; cases h
      · simp only [if_neg hatt]
        refine ⟨?_, ?_, ?_⟩
        · exact hH
        · intro r h; rcases h with h | h <;> cases h
        · intro t h; cases h
  | post rnum =>
    have hr : rnum ∈ s.checked := hI rnum (Or.inr hp)
    by_cases hmax : s.maxAtt > MAX_ATTEMPTS_PER_PICTURE_TYPE * k
    · simp only [selStep, hp, if_pos hmax]
      refine ⟨?_, ?_, ?_⟩
      · exact hH
      · intro r h; rcases h with h | h <;> cases h
      · intro t h; cases h
    · simp only [selStep, hp, if_neg hmax]
      by_cases hacc : s.attempts < MAX_ATTEMPTS_PER_PICTURE_TYPE
      · simp only [if_pos hacc]
        refine ⟨?_, ?_, ?_⟩
        · intro x hx
          rcases Finset.mem_insert.mp hx with hx | hx
          · rw [hx]
            exact hr
          · exact hH hx
        · intro r h; rcases h with h | h <;> cases h
        · intro t h; cases h
      · simp only [if_neg hacc]
        refine ⟨?_, ?_, ?_⟩
        · exact hH
        · intro r h; rcases h with h | h <;> cases h
        · intro t h; cases h
  | done t =>
    simp only [selStep, hp]
    refine ⟨?_, ?_, ?_⟩
    · exact hH
    · intro r h; rcases h with h | h <;> cases h
    · intro t' h
      cases h
      exact hJ t hp
  | failed e =>
    simp only [selStep, hp]
    refine ⟨?_, ?_, ?_⟩
    · exact hH
    · intro r h; rcases h with h | h <;> cases h
    · intro t' h; cases h

theorem selRun_match (L k : ℕ) (pOK : ℕ → Bool) (g : ℕ → ℕ) :
    ∀ fuel, SelInvMatch pOK (selRun L k pOK g fuel) := by
  intro fuel
  induction fuel with
  | zero =>
    refine ⟨?_, ?_, ?_⟩
    · intro x hx; cases hx
    · intro r h; cases h
    · intro t h; cases h
  | succ n ih =>
    rw [selRun, Function.iterate_succ_apply']
    exact selStep_match ih

theorem selRun_card (L k : ℕ) (pOK : ℕ → Bool) (g : ℕ → ℕ) :
    ∀ fuel, SelInvCard k (selRun L k pOK g fuel) := by
  intro fuel
  induction fuel with
  | zero =>
    refine ⟨?_, ?_, ?_⟩
    · simp [selRun, selInit]
    · intro h
      rcases h with h | h | ⟨r, h⟩ | ⟨r, h⟩ <;> simp [selRun, selInit] at h
    · intro t h
      simp [selRun, selInit] at h
  | succ n ih =>
    rw [selRun, Function.iterate_succ_apply']
    exact selStep_card ih

theorem selRun_tested (L k : ℕ) (pOK : ℕ → Bool) (g : ℕ → ℕ) :
    ∀ fuel, SelInvTested (selRun L k pOK g fuel) := by
  intro fuel
  induction fuel with
  | zero =>
    exact ⟨by simp [selRun, selInit], by intro x hx; simp [selRun, selInit] at hx⟩
  | succ n ih =>
    rw [selRun, Function.iterate_succ_apply']
    exact selStep_tested ih

theorem selRun_sub (L k : ℕ) (pOK : ℕ → Bool) (g : ℕ → ℕ) :
    ∀ fuel, SelInvSub (selRun L k pOK g fuel) := by
  intro fuel
  induction fuel with
  | zero =>
    refine ⟨?_, ?_, ?_⟩
    · intro x hx; cases hx
    · intro r h; rcases h with h | h <;> cases h
    · intro t h; cases h
  | succ n ih =>
    rw [selRun, Function.iterate_succ_apply']
    exact selStep_sub ih

/-- Range invariant: when the RNG stream only produces values below `L`
(which models `random.randrange(start=0, stop=num_frames)`), every checked
index is below `L`. -/
def SelInvBound (L : ℕ) (s : SelState) : Prop :=
  ∀ x ∈ s.checked, x < L

theorem selStep_bound {L k : ℕ} {pOK : ℕ → Bool} {g : ℕ → ℕ} {s : SelState}
    (hg : ∀ p, g p < L) (hb : SelInvBound L s) : SelInvBound L (selStep L k pOK g s) := by
  unfold SelInvBound
  cases hp : s.phase with
  | outer =>
    by_cases hlt : s.samples.card < k
    · simp only [selStep, hp, if_pos hlt]; exact hb
    · simp only [selStep, hp, if_neg hlt]; exact hb
  | inner =>
    by_cases hc : s.checked.card < L
    · simp only [selStep, hp, if_pos hc]; exact hb
    · simp only [selStep, hp, if_neg hc]; exact hb
  | draw =>
    by_cases hin : g s.pos ∈ s.checked
    · simp only [selStep, hp, if_pos hin]; exact hb
    · simp only [selStep, hp, if_neg hin]
      intro x hx
      rcases Finset.mem_insert.mp hx with hx | hx
      · rw [hx]; exact hg s.pos
      · exact hb x hx
  | test rnum =>
    by_cases hok : pOK rnum = true
    · simp only [selStep, hp, if_pos hok]; exact hb
    · simp only [selStep, hp, if_neg hok]
      by_cases hatt : s.attempts + 1 > MAX_ATTEMPTS_PER_PICTURE_TYPE
      · simp only [if_pos hatt]; exact hb
      · simp only [if_neg hatt]; exact hb
  | post rnum =>
    by_cases hmax : s.maxAtt > MAX_ATTEMPTS_PER_PICTURE_TYPE * k
    · simp only [selStep, hp, if_pos hmax]; exact hb
    · simp only [selStep, hp, if_neg hmax]
      by_cases hacc : s.attempts < MAX_ATTEMPTS_PER_PICTURE_TYPE
      · simp only [if_pos hacc]; exact hb
      · simp only [if_neg hacc]; exact hb
  | done t =>
    simp only [selStep, hp]; exact hb
  | failed e =>
    simp only [selStep, hp]; exact hb

theorem selRun_bound (L k : ℕ) (pOK : ℕ → Bool) (g : ℕ → ℕ) (hg : ∀ p, g p < L) :
    ∀ fuel, SelInvBound L (selRun L k pOK g fuel) := by
  intro fuel
  induction fuel with
  | zero =>
    intro x hx
    simp [selRun, selInit] at hx
  | succ n ih =>
    rw [selRun, Function.iterate_succ_apply']
    exact selStep_bound hg ih

/-- An `ok` outcome can only be read off a `done` machine state. -/
theorem selFinal_ok {st : SelState} {s : Finset ℕ} (h : selFinal st = .ok s) :
    st.phase = .done s := by
  unfold selFinal at h
  cases hp : st.phase with
  | done t => rw [hp] at h; cases h; rfl
  | failed e => rw [hp] at h; cases e <;> simp at h
  | outer => rw [hp] at h; cases h
  | inner => rw [hp] at h; cases h
  | draw => rw [hp] at h; cases h
  | test r => rw [hp] at h; cases h
  | post r => rw [hp] at h; cases h

/-- Passing the source's acceptance test (membership of the raw tag in the
uppercased filter, comp.py lines 275 and 292-295) implies the spec's
case-insensitive membership, thanks to idempotence of uppercasing. -/
theorem matchesPTypes_caseInsens {clips : List Clip} {picture_types : List String}
    {i : ℕ} (h : matchesPTypes clips (picture_types.map strUpper) i = true) :
    ∀ c ∈ clips, caseInsensMem (c.pictType i) picture_types := by
  intro c hc
  rw [matchesPTypes, List.all_eq_true] at h
  have hmem : c.pictType i ∈ picture_types.map strUpper := by
    simpa using h c hc
  rcases List.mem_map.mp hmem with ⟨p, hp, hpe⟩
  exact ⟨p, hp, by rw [← hpe]; exact strUpper_idem p⟩

/-- Claim C1: with a non-empty picture-type filter, every index in a returned
sample set carries, in every clip, a picture-type tag contained in the filter
up to letter case of both the tag and the filter entry. -/
theorem C1_filter_sound (clips : List Clip) (L k : ℕ) (picture_types : List String)
    (g : ℕ → ℕ) (fuel : ℕ) (s : Finset ℕ)
    (_hne : picture_types ≠ [])
    (hok : select_samples_with_picture_types clips L k picture_types g fuel = .ok s) :
    ∀ i ∈ s, ∀ c ∈ clips, caseInsensMem (c.pictType i) picture_types := by
  intro i hi c hc
  have hdone := selFinal_ok hok
  have hinv := selRun_match L k (matchesPTypes clips (picture_types.map strUpper)) g fuel
  obtain ⟨-, -, hC⟩ := hinv
  exact matchesPTypes_caseInsens (hC s hdone i hi) c hc

/-- Witness for C1: a concrete run with filter `["i"]` over a clip whose
frames are tagged `"I"` succeeds, and the returned index 0 matches the filter
case-insensitively. -/
theorem C1_filter_sound_witness :
    (["i"] : List String) ≠ [] ∧
    caseInsensMem (Clip.pictType ⟨2, fun _ => "I"⟩ 0) ["i"] :=
  ⟨by decide,
   C1_filter_sound [⟨2, fun _ => "I"⟩] 2 1 ["i"] (fun p => p) 10 {0}
     (by decide) (by rfl) 0 (by decide) ⟨2, fun _ => "I"⟩ (by simp)⟩

/-- Claim C10: a normal (non-raising) return of the constrained selector
carries exactly `k` distinct indices. -/
theorem C10_ok_card (clips : List Clip) (L k : ℕ) (picture_types : List String)
    (g : ℕ → ℕ) (fuel : ℕ) (s : Finset ℕ)
    (hok : select_samples_with_picture_types clips L k picture_types g fuel = .ok s) :
    s.card = k := by
  have hdone := selFinal_ok hok
  obtain ⟨-, -, hK⟩ := selRun_card L k (matchesPTypes clips (picture_types.map strUpper)) g fuel
  exact hK s hdone

/-- Witness for C10: a concrete successful constrained run with `k = 2`
returns a set of exactly 2 indices. -/
theorem C10_ok_card_witness : ({1, 0} : Finset ℕ).card = 2 :=
  C10_ok_card [⟨3, fun _ => "B"⟩] 3 2 ["b"] (fun p => p) 30 {1, 0} (by rfl)

/-- The freshness contract of `_rand_num_frames`: a returned draw is never an
already-checked index. -/
theorem rand_num_frames_not_mem (checked : Finset ℕ) (rand_func : ℕ → ℕ) :
    ∀ fuel pos r pos', rand_num_frames checked rand_func pos fuel = some (r, pos') →
      r ∉ checked := by
  intro fuel
  induction fuel with
  | zero => intro pos r pos' h; cases h
  | succ n ih =>
    intro pos r pos' h
    rw [rand_num_frames] at h
    by_cases hin : rand_func pos ∈ checked
    · rw [if_pos hin] at h
      exact ih (pos + 1) r pos' h
    · rw [if_neg hin] at h
      cases h
      exact hin

/-- Claim C4: within one constrained-sampling session no frame index is ever
picture-type-tested twice.  The random draw helper only returns indices
outside the checked set; every tested index is recorded in the global checked
set, which persists across sample slots; and the ghost trace of tested
indices is duplicate-free over the entire run. -/
theorem C4_never_retest (L k : ℕ) (pOK : ℕ → Bool) (g : ℕ → ℕ) (fuel : ℕ)
    (checked : Finset ℕ) (rand_func : ℕ → ℕ) (rfuel pos r pos' : ℕ)
    (hdraw : rand_num_frames checked rand_func pos rfuel = some (r, pos')) :
    r ∉ checked ∧
    ((selRun L k pOK g fuel).testedA.map Prod.fst).Nodup ∧
    (∀ x ∈ (selRun L k pOK g fuel).testedA.map Prod.fst,
      x ∈ (selRun L k pOK g fuel).checked) := by
  obtain ⟨hF, hG⟩ := selRun_tested L k pOK g fuel
  exact ⟨rand_num_frames_not_mem checked rand_func rfuel pos r pos' hdraw, hF, hG⟩

/-- Witness for C4 at a concrete draw and a concrete 30-step run. -/
theorem C4_never_retest_witness :
    rand_num_frames {0, 1} (fun p => p) 0 5 = some (2, 3) ∧
    (2 ∉ ({0, 1} : Finset ℕ) ∧
     ((selRun 3 2 (fun _ => true) (fun p => p) 30).testedA.map Prod.fst).Nodup ∧
     (∀ x ∈ (selRun 3 2 (fun _ => true) (fun p => p) 30).testedA.map Prod.fst,
       x ∈ (selRun 3 2 (fun _ => true) (fun p => p) 30).checked)) :=
  ⟨by decide,
   C4_never_retest 3 2 (fun _ => true) (fun p => p) 30 {0, 1} (fun p => p) 5 0 2 3
     (by decide)⟩

/-- Claim C2 (exhaustion behaviour of the constrained selector).  First: if
the filter is unsatisfiable on the clip set and at least one sample is
requested, no amount of fuel can make the selector return a sample set.
Second: from the top of the inner loop with all `L` indices already checked,
the very next step raises the not-enough `ValueError` (comp.py line 289).
Third: right after a slot with the global attempt counter above `50 * k`,
the very next step raises the `RecursionError` (line 308).  Fourth: a raised
state never yields a result set — no partial result is returned. -/
theorem C2_exhaustion (clips : List Clip) (L k : ℕ) (picture_types : List String)
    (g : ℕ → ℕ)
    (hg : ∀ p, g p < L)
    (hunsat : ∀ i, i < L → matchesPTypes clips (picture_types.map strUpper) i = false)
    (hk : 1 ≤ k) :
    (∀ fuel s, select_samples_with_picture_types clips L k picture_types g fuel ≠ .ok s) ∧
    (∀ st : SelState, st.phase = .inner → L ≤ st.checked.card →
      (selStep L k (matchesPTypes clips (picture_types.map strUpper)) g st).phase =
        .failed selErrNotEnough) ∧
    (∀ st : SelState, ∀ r, st.phase = .post r →
      MAX_ATTEMPTS_PER_PICTURE_TYPE * k < st.maxAtt →
      (selStep L k (matchesPTypes clips (picture_types.map strUpper)) g st).phase =
        .failed selErrMaxAtt) ∧
    (∀ st : SelState, ∀ e s, st.phase = .failed e → selFinal st ≠ .ok s) := by
  refine ⟨?_, ?_, ?_, ?_⟩
  · intro fuel s h
    have hdone := selFinal_ok h
    obtain ⟨-, -, hC⟩ :=
      selRun_match L k (matchesPTypes clips (picture_types.map strUpper)) g fuel
    obtain ⟨-, -, hK⟩ :=
      selRun_card L k (matchesPTypes clips (picture_types.map strUpper)) g fuel
    obtain ⟨-, -, hJ⟩ :=
      selRun_sub L k (matchesPTypes clips (picture_types.map strUpper)) g fuel
    have hb := selRun_bound L k (matchesPTypes clips (picture_types.map strUpper)) g hg fuel
    have hpos : 0 < s.card := by
      rw [hK s hdone]; omega
    obtain ⟨x, hx⟩ := Finset.card_pos.mp hpos
    have hxL : x < L := hb x (hJ s hdone hx)
    have htrue := hC s hdone x hx
    rw [hunsat x hxL] at htrue
    cases htrue
  · intro st h1 h2
    have hng : ¬ st.checked.card < L := by omega
    simp only [selStep, h1, if_neg hng]
  · intro st r h1 h2
    simp only [selStep, h1, if_pos h2]
  · intro st e s h1 hok
    have := selFinal_ok hok
    rw [h1] at this
    cases this

/-- Witness for C2: with a single one-frame clip tagged `"P"` and filter
`["I"]`, the selector raises the not-enough error and in particular never
returns the empty set as a result. -/
theorem C2_exhaustion_witness :
    select_samples_with_picture_types [⟨1, fun _ => "P"⟩] 1 1 ["I"] (fun _ => 0) 20 =
      .notEnough ∧
    select_samples_with_picture_types [⟨1, fun _ => "P"⟩] 1 1 ["I"] (fun _ => 0) 20 ≠
      .ok ∅ :=
  ⟨by decide,
   (C2_exhaustion [⟨1, fun _ => "P"⟩] 1 1 ["I"] (fun _ => 0)
     (fun _ => Nat.zero_lt_one)
     (by
       intro i hi
       have hz : i = 0 := by omega
       rw [hz]
       decide)
     (by omega)).1 20 ∅⟩

set_option maxRecDepth 10000 in
/-- Counterexample to claim C3 as stated.  One clip of 51 frames in which
only frame 50 is an I-frame, filter `["I"]`, `k = 1`, and an RNG stream that
enumerates 0, 1, 2, ….  The matching candidate (index 50) is drawn and
tested while the slot stands at exactly 50 failed attempts — within the
stated retry cap of 50 attempts — and it passes the filter, yet it is not
accepted (`_attempts < 50` fails) and the whole operation subsequently
raises, so the found-within-cap candidate never enters any result set. -/
theorem C3_counterexample :
    (50, 50) ∈ (selRun 51 1
      (matchesPTypes [⟨51, fun i => if i = 50 then "I" else "P"⟩] (["I"].map strUpper))
      (fun p => p) 200).testedA ∧
    matchesPTypes [⟨51, fun i => if i = 50 then "I" else "P"⟩] (["I"].map strUpper) 50 =
      true ∧
    select_samples_with_picture_types [⟨51, fun i => if i = 50 then "I" else "P"⟩]
      51 1 ["I"] (fun p => p) 200 = .notEnough := by
  refine ⟨by decide, by decide, by decide⟩

/-- Amended claim C3: after a sample slot finishes (state `post r`), while
the global budget is not exceeded the operation never aborts — it proceeds
to the next slot — and the drawn index `r` is accepted into the sample set
exactly when the slot had made strictly fewer than 50 failed attempts.  In
particular a slot abandoned after 51 failed attempts contributes no index,
and a candidate that matched after exactly 50 failed attempts, although
found within the retry budget, is not accepted either. -/
theorem C3_slot_boundary (L k : ℕ) (pOK : ℕ → Bool) (g : ℕ → ℕ) (st : SelState)
    (r : ℕ) (hph : st.phase = .post r)
    (hbudget : st.maxAtt ≤ MAX_ATTEMPTS_PER_PICTURE_TYPE * k) :
    (selStep L k pOK g st).phase = .outer ∧
    (selStep L k pOK g st).samples =
      (if st.attempts < MAX_ATTEMPTS_PER_PICTURE_TYPE then insert r st.samples
       else st.samples) := by
  have hng : ¬ st.maxAtt > MAX_ATTEMPTS_PER_PICTURE_TYPE * k := by omega
  by_cases hacc : st.attempts < MAX_ATTEMPTS_PER_PICTURE_TYPE
  · simp only [selStep, hph, if_neg hng, if_pos hacc]
    exact ⟨trivial, trivial⟩
  · simp only [selStep, hph, if_neg hng, if_neg hacc]
    exact ⟨trivial, trivial⟩

/-- Witness for the amended C3 at the boundary case: a slot that stands at
exactly 50 failed attempts continues to the next slot without accepting the
matched index. -/
theorem C3_slot_boundary_witness :
    (selStep 10 1 (fun _ => true) (fun _ => 0)
      ⟨∅, 0, {7}, 50, 3, [], .post 7⟩).phase = .outer ∧
    (selStep 10 1 (fun _ => true) (fun _ => 0)
      ⟨∅, 0, {7}, 50, 3, [], .post 7⟩).samples =
      (if (50 : ℕ) < MAX_ATTEMPTS_PER_PICTURE_TYPE then insert 7 ∅ else ∅) :=
  C3_slot_boundary 10 1 (fun _ => true) (fun _ => 0)
    ⟨∅, 0, {7}, 50, 3, [], .post 7⟩ 7 rfl (by decide)

/-! ## Decimal rendering and zero padding

make_comps widths: `len("%i" % max_num)` (comp.py lines 160, 179, 189, 222)
and `f'{f}'.zfill(...)` pad each frame number to the width of the largest
selected index. -/

/-- Decimal digits of `n`, most significant first, computed with fuel (the
fuel argument only serves structural recursion; `n` draws are enough). -/
def decStrAux : ℕ → ℕ → List Char
  | 0, _ => []
  | fuel + 1, n =>
    if n < 10 then [Nat.digitChar n]
    else decStrAux fuel (n / 10) ++ [Nat.digitChar (n % 10)]

/-- Model of Python `str(n)` / `"%i" % n` for a natural number. -/
def pyNatStr (n : ℕ) : String :=
  ⟨decStrAux (n + 1) n⟩

/-- Model of `len("%i" % max_num)`: the padding width used by every filename
in make_comps. -/
def padWidth (max_num : ℕ) : ℕ :=
  (pyNatStr max_num).length

/-- The number of decimal digits of `n`, the quantity named by the
specification (one digit for 0). -/
def numDigits (n : ℕ) : ℕ :=
  Nat.log 10 n + 1

/-- Model of Python `s.zfill(w)` for the digit strings used here: left-pad
with zeros up to width `w`. -/
def zfill (s : String) (w : ℕ) : String :=
  ⟨List.replicate (w - s.length) (Char.ofNat 48) ++ s.data⟩

/-- Image file name produced for clip `name` and frame `f`, comp.py lines
159-162 and 188-191: `{name}_{f zero-padded to len("%i" % max_num)}.png`. -/
def imageFileName (name : String) (f max_num : ℕ) : String :=
  name ++ "_" ++ zfill (pyNatStr f) (padWidth max_num) ++ ".png"

theorem decStrAux_length : ∀ (fuel n : ℕ), n < fuel →
    (decStrAux fuel n).length = Nat.log 10 n + 1 := by
  intro fuel
  induction fuel with
  | zero => intro n h; omega
  | succ m ih =>
    intro n h
    by_cases h10 : n < 10
    · rw [decStrAux, if_pos h10]
      have : Nat.log 10 n = 0 := Nat.log_eq_zero_iff.mpr (Or.inl h10)
      simp [this]
    · have hrec : n / 10 < m := by
        have h1 : n / 10 < n := Nat.div_lt_self (by omega) (by omega)
        omega
      rw [decStrAux, if_neg h10, List.length_append, ih _ hrec]
      have hpos : 0 < Nat.log 10 n := Nat.log_pos (by omega) (by omega)
      have hdiv := Nat.log_div_base 10 n
      simp only [List.length_cons, List.length_nil]
      omega

/-- The padding width computed by the source equals the number of decimal
digits of the maximum selected index. -/
theorem padWidth_eq_numDigits (m : ℕ) : padWidth m = numDigits m := by
  unfold padWidth pyNatStr numDigits
  show (decStrAux (m + 1) m).length = _
  exact decStrAux_length (m + 1) m (by omega)

theorem zfill_length (s : String) (w : ℕ) :
    (zfill s w).length = max w s.length := by
  unfold zfill
  show (List.replicate (w - s.length) (Char.ofNat 48) ++ s.data).length = _
  rw [List.length_append, List.length_replicate]
  have : s.data.length = s.length := rfl
  omega

/-- The decimal rendering of a smaller number is no longer. -/
theorem pyNatStr_length_mono {a b : ℕ} (h : a ≤ b) :
    (pyNatStr a).length ≤ (pyNatStr b).length := by
  unfold pyNatStr
  show (decStrAux (a + 1) a).length ≤ (decStrAux (b + 1) b).length
  rw [decStrAux_length (a + 1) a (by omega), decStrAux_length (b + 1) b (by omega)]
  have := Nat.log_mono_right (b := 10) h
  omega

/-! ## Unconstrained sampling: random.sample (comp.py line 124)

`samples = set(random.sample(range(lens.pop()), num))`.  The library call is
modelled by CPython's pool-copy selection algorithm: copy the population,
then `k` times pick position `j = randbelow(n - i)` in the live prefix of
the pool, output `pool[j]`, and move the last live element into slot `j`.
Each call to the underlying generator is one stream element `g i`, reduced
modulo the live pool size as `randbelow` produces a value below its bound. -/

def samplePoolAux (g : ℕ → ℕ) : ℕ → ℕ → List ℕ → List ℕ
  | _, 0, _ => []
  | i, m + 1, pool =>
    pool.getD (g i % pool.length) 0 ::
      samplePoolAux g (i + 1) m
        ((pool.set (g i % pool.length) (pool.getD (pool.length - 1) 0)).dropLast)

/-- Model of `random.sample(range(L), k)` driven by the stream `g`. -/
def randomSample (g : ℕ → ℕ) (L k : ℕ) : List ℕ :=
  samplePoolAux g 0 k (List.range L)

/-- Model of `set(random.sample(range(L), num))`, comp.py line 124. -/
def unconstrained_samples (g : ℕ → ℕ) (L num : ℕ) : Finset ℕ :=
  (randomSample g L num).toFinset

/-- Replacing slot `j` by the last element and dropping the last position is
a permutation of removing slot `j`. -/
theorem set_dropLast_perm (pool : List ℕ) (j : ℕ) (hj : j < pool.length) :
    ((pool.set j (pool.getD (pool.length - 1) 0)).dropLast).Perm
      (pool.eraseIdx j) := by
  have hne : pool ≠ [] := by
    intro h; rw [h] at hj; simp at hj
  rw [List.set_eq_take_append_cons_drop, if_pos hj, List.eraseIdx_eq_take_drop_succ]
  by_cases hj1 : j + 1 < pool.length
  · have hdne : pool.drop (j + 1) ≠ [] := by
      intro h
      have := congrArg List.length h
      rw [List.length_drop] at this
      simp at this
      omega
    have hlast : (pool.drop (j + 1)).getLast hdne = pool.getD (pool.length - 1) 0 := by
      rw [List.getLast_drop, List.getLast_eq_getElem,
        List.getD_eq_getElem pool 0 (by omega)]
    rw [List.dropLast_append_of_ne_nil _ (by simp),
      List.dropLast_cons_of_ne_nil hdne]
    have hD : pool.drop (j + 1) =
        (pool.drop (j + 1)).dropLast ++ [pool.getD (pool.length - 1) 0] := by
      rw [← hlast, List.dropLast_append_getLast hdne]
    have h2 : (pool.getD (pool.length - 1) 0 :: (pool.drop (j + 1)).dropLast).Perm
        (pool.drop (j + 1)) := by
      conv_rhs => rw [hD]
      exact (List.perm_append_singleton _ _).symm
    exact List.Perm.append_left _ h2
  · have hdrop : pool.drop (j + 1) = [] := List.drop_eq_nil_of_le (by omega)
    rw [hdrop]
    rw [show List.take j pool ++ pool.getD (pool.length - 1) 0 :: ([] : List ℕ) =
      List.take j pool ++ [pool.getD (pool.length - 1) 0] from rfl]
    rw [List.dropLast_concat, List.append_nil]

/-- In a duplicate-free list, the element at slot `j` does not occur once
slot `j` is removed. -/
theorem nodup_not_mem_eraseIdx {l : List ℕ} {j : ℕ} (h : j < l.length)
    (hnd : l.Nodup) : l[j] ∉ l.eraseIdx j := by
  intro hmem
  rw [List.eraseIdx_eq_take_drop_succ] at hmem
  have hshape : l = l.take j ++ l[j] :: l.drop (j + 1) := by
    conv_lhs => rw [← List.take_append_drop j l]
    rw [List.drop_eq_getElem_cons h]
  rw [hshape, List.nodup_append] at hnd
  obtain ⟨h1, h2, h3⟩ := hnd
  rcases List.mem_append.mp hmem with hm | hm
  · exact h3 hm (List.mem_cons_self _ _)
  · exact (List.nodup_cons.mp h2).1 hm

theorem samplePoolAux_spec (g : ℕ → ℕ) :
    ∀ (k i : ℕ) (pool : List ℕ), pool.Nodup → k ≤ pool.length →
      (samplePoolAux g i k pool).length = k ∧
      (samplePoolAux g i k pool).Nodup ∧
      ∀ x ∈ samplePoolAux g i k pool, x ∈ pool := by
  intro k
  induction k with
  | zero =>
    intro i pool _ _
    exact ⟨rfl, List.nodup_nil, by intro x hx; cases hx⟩
  | succ m ih =>
    intro i pool hnd hk
    have hpos : 0 < pool.length := by omega
    have hj : g i % pool.length < pool.length := Nat.mod_lt _ hpos
    have hperm := set_dropLast_perm pool (g i % pool.length) hj
    have hnd' := hperm.symm.nodup (hnd.eraseIdx _)
    have hlen' : ((pool.set (g i % pool.length)
        (pool.getD (pool.length - 1) 0)).dropLast).length = pool.length - 1 := by
      rw [hperm.length_eq, List.length_eraseIdx, if_pos hj]
    obtain ⟨ihl, ihnd, ihmem⟩ := ih (i + 1) _ hnd' (by omega)
    have heq : samplePoolAux g i (m + 1) pool =
        pool.getD (g i % pool.length) 0 ::
          samplePoolAux g (i + 1) m
            ((pool.set (g i % pool.length) (pool.getD (pool.length - 1) 0)).dropLast) :=
      rfl
    rw [heq]
    refine ⟨by rw [List.length_cons, ihl], ?_, ?_⟩
    · refine List.nodup_cons.mpr ⟨?_, ihnd⟩
      intro hmem
      have h1 : pool.getD (g i % pool.length) 0 ∈ pool.eraseIdx (g i % pool.length) :=
        hperm.mem_iff.mp (ihmem _ hmem)
      rw [List.getD_eq_getElem pool 0 hj] at h1
      exact nodup_not_mem_eraseIdx hj hnd h1
    · intro x hx
      rcases List.mem_cons.mp hx with hx | hx
      · rw [hx, List.getD_eq_getElem pool 0 hj]
        exact List.getElem_mem hj
      · exact List.mem_of_mem_eraseIdx (hperm.mem_iff.mp (ihmem x hx))

/-- Claim C5: with no picture-type filter and `num ≤ L`, the sample
selection of comp.py line 124 yields exactly `num` distinct indices, all in
`[0, L)`. -/
theorem C5_unconstrained_count (g : ℕ → ℕ) (L num : ℕ) (h : num ≤ L) :
    (unconstrained_samples g L num).card = num ∧
    ∀ x ∈ unconstrained_samples g L num, x < L := by
  obtain ⟨hl, hnd, hmem⟩ := samplePoolAux_spec g num 0 (List.range L)
    (List.nodup_range L) (by simpa using h)
  constructor
  · rw [unconstrained_samples, randomSample, List.toFinset_card_of_nodup hnd, hl]
  · intro x hx
    rw [unconstrained_samples, randomSample, List.mem_toFinset] at hx
    exact List.mem_range.mp (hmem x hx)

/-- Witness for C5 at `L = 5`, `num = 3` and the identity stream. -/
theorem C5_unconstrained_count_witness :
    (unconstrained_samples (fun p => p) 5 3).card = 3 ∧ (0 : ℕ) < 5 :=
  ⟨(C5_unconstrained_count (fun p => p) 5 3 (by omega)).1,
   (C5_unconstrained_count (fun p => p) 5 3 (by omega)).2 0 (by decide)⟩

/-! ## make_comps post-sampling: union with extra frames, sorting, padding
(comp.py lines 126-130) -/

/-- Model of comp.py lines 127-128: `samples.update(frames)` (a no-op when
no extra frames are supplied, matching the falsy guard `if frames:`). -/
def finalize_samples (samples : Finset ℕ) (frames : List ℕ) : Finset ℕ :=
  samples ∪ frames.toFinset

/-- Model of `sorted(samples)` (comp.py line 130) for a set of naturals all
below `bound`: the ascending enumeration of its members. -/
def sortedFrames (samples : Finset ℕ) (bound : ℕ) : List ℕ :=
  (List.range bound).filter fun i => decide (i ∈ samples)

/-- Claim C6: with extra frames, the frame list used downstream is exactly
the union of the drawn samples and the extra frames, duplicate-free, in
strictly ascending order, of size at least `count`; and the zero-padding
width applied to every output filename equals the number of decimal digits
of the maximum selected index. -/
theorem C6_union_sort_pad (samples : Finset ℕ) (extra : List ℕ) (count m : ℕ)
    (hcard : samples.card = count)
    (hmax : (finalize_samples samples extra).max = some m) :
    (∀ x, x ∈ sortedFrames (finalize_samples samples extra) (m + 1) ↔
      (x ∈ samples ∨ x ∈ extra)) ∧
    (sortedFrames (finalize_samples samples extra) (m + 1)).Nodup ∧
    (sortedFrames (finalize_samples samples extra) (m + 1)).Sorted (· < ·) ∧
    count ≤ (sortedFrames (finalize_samples samples extra) (m + 1)).length ∧
    padWidth m = numDigits m ∧
    (∀ f ∈ sortedFrames (finalize_samples samples extra) (m + 1),
      (zfill (pyNatStr f) (padWidth m)).length = numDigits m) := by
  have hmem : ∀ x, x ∈ sortedFrames (finalize_samples samples extra) (m + 1) ↔
      (x ∈ samples ∨ x ∈ extra) := by
    intro x
    rw [sortedFrames, List.mem_filter, List.mem_range]
    constructor
    · rintro ⟨-, hx⟩
      have := of_decide_eq_true hx
      rcases Finset.mem_union.mp this with h | h
      · exact Or.inl h
      · exact Or.inr (List.mem_toFinset.mp h)
    · intro hx
      have hu : x ∈ finalize_samples samples extra := by
        rcases hx with h | h
        · exact Finset.mem_union_left _ h
        · exact Finset.mem_union_right _ (List.mem_toFinset.mpr h)
      refine ⟨?_, decide_eq_true hu⟩
      have := Finset.le_max_of_eq hu hmax
      omega
  have hsorted : (sortedFrames (finalize_samples samples extra) (m + 1)).Sorted (· < ·) :=
    List.Pairwise.filter _ (List.pairwise_lt_range (m + 1))
  have hnd : (sortedFrames (finalize_samples samples extra) (m + 1)).Nodup :=
    hsorted.nodup
  have hset : (sortedFrames (finalize_samples samples extra) (m + 1)).toFinset =
      finalize_samples samples extra := by
    apply Finset.ext
    intro x
    rw [List.mem_toFinset, hmem x, finalize_samples, Finset.mem_union,
      List.mem_toFinset]
  refine ⟨hmem, hnd, hsorted, ?_, padWidth_eq_numDigits m, ?_⟩
  · have h1 : samples.card ≤ (finalize_samples samples extra).card :=
      Finset.card_le_card Finset.subset_union_left
    have h2 : (finalize_samples samples extra).card =
        (sortedFrames (finalize_samples samples extra) (m + 1)).length := by
      conv_lhs => rw [← hset]
      exact List.toFinset_card_of_nodup hnd
    omega
  · intro f hf
    have hle : f ≤ m := by
      have hu : f ∈ finalize_samples samples extra := by
        rcases (hmem f).mp hf with h | h
        · exact Finset.mem_union_left _ h
        · exact Finset.mem_union_right _ (List.mem_toFinset.mpr h)
      exact Finset.le_max_of_eq hu hmax
    rw [zfill_length]
    have hmono : (pyNatStr f).length ≤ (pyNatStr m).length := pyNatStr_length_mono hle
    have hpw : padWidth m = (pyNatStr m).length := rfl
    rw [← padWidth_eq_numDigits m]
    omega

/-- Witness for C6 at `samples = {5, 2}`, `extra = [7, 2]`, `count = 2`,
maximum 7. -/
theorem C6_union_sort_pad_witness :
    (5 ∈ sortedFrames (finalize_samples {5, 2} [7, 2]) 8 ↔
      (5 ∈ ({5, 2} : Finset ℕ) ∨ 5 ∈ [7, 2])) ∧
    (sortedFrames (finalize_samples {5, 2} [7, 2]) 8).Sorted (· < ·) ∧
    2 ≤ (sortedFrames (finalize_samples {5, 2} [7, 2]) 8).length ∧
    padWidth 7 = numDigits 7 :=
  have h := C6_union_sort_pad {5, 2} [7, 2] 2 7 (by decide) (by decide)
  ⟨h.1 5, h.2.2.1, h.2.2.2.1, h.2.2.2.2.1⟩

/-! ## slow.pics multipart payload (comp.py lines 232-251)

`fields` is a Python dict built as

    fields: Dict[str, Any] = {
        'collectionName': collection_name,
        'public': str(public).lower(),
        'optimizeImages': 'true',
        'hentai': 'false'
    }
    for i, (name, images) in enumerate(list(clips.keys()) + (['diff'] if magick_compare else []), all_images):
        for j, (image, frame) in enumerate(zip(images, frames)):
            fields[f'comparisons[{j}].name'] = str(frame)
            fields[f'comparisons[{j}].images[{i}].name'] = name
            fields[f'comparisons[{j}].images[{i}].file'] = (image.name, image.read_bytes(), 'image/png')

It is modelled as an association list with Python-dict update semantics
(`dictSet`: replace in place if the key exists, else append), with the key
strings represented structurally. -/

/-- Structured form of the multipart field keys. -/
inductive FieldKey where
  /-- the literal key `collectionName` -/
  | collectionName : FieldKey
  /-- the literal key `public` -/
  | public : FieldKey
  /-- the literal key `optimizeImages` -/
  | optimizeImages : FieldKey
  /-- the literal key `hentai` -/
  | hentai : FieldKey
  /-- the key `comparisons[j].name` -/
  | compName (j : ℕ) : FieldKey
  /-- the key `comparisons[j].images[i].name` -/
  | imageName (j i : ℕ) : FieldKey
  /-- the key `comparisons[j].images[i].file` -/
  | imageFile (j i : ℕ) : FieldKey
  deriving DecidableEq

/-- The flat string each structured key renders to in the actual payload. -/
def FieldKey.render : FieldKey → String
  | .collectionName => "collectionName"
  | .public => "public"
  | .optimizeImages => "optimizeImages"
  | .hentai => "hentai"
  | .compName j => "comparisons[" ++ pyNatStr j ++ "].name"
  | .imageName j i => "comparisons[" ++ pyNatStr j ++ "].images[" ++ pyNatStr i ++ "].name"
  | .imageFile j i => "comparisons[" ++ pyNatStr j ++ "].images[" ++ pyNatStr i ++ "].file"

/-- A multipart field value: a plain string, or a file triple
`(filename, bytes, mime-type)` as built at comp.py line 251. -/
inductive FieldVal where
  | str (s : String) : FieldVal
  | file (fname : String) (content : String) (mime : String) : FieldVal
  deriving DecidableEq

/-- Model of Python `str(public).lower()`, comp.py line 239. -/
def pyBoolStr (b : Bool) : String :=
  if b then "true" else "false"

/-- The fields dictionary in insertion order. -/
abbrev Dict := List (FieldKey × FieldVal)

/-- Python dict assignment `d[k] = v`: replace in place if present, append
otherwise. -/
def dictSet : Dict → FieldKey → FieldVal → Dict
  | [], k, v => [(k, v)]
  | (k2, v2) :: rest, k, v =>
    if k2 = k then (k, v) :: rest else (k2, v2) :: dictSet rest k v

/-- Python dict lookup `d[k]`. -/
def dictFind : Dict → FieldKey → Option FieldVal
  | [], _ => none
  | (k2, v2) :: rest, k => if k2 = k then some v2 else dictFind rest k

/-- Python `k in d`. -/
def hasKey : Dict → FieldKey → Bool
  | [], _ => false
  | (k2, _) :: rest, k => k2 = k || hasKey rest k

/-- Is this value a file field? -/
def isFileVal : FieldVal → Bool
  | .file _ _ _ => true
  | .str _ => false

/-- Is this key one of the `comparisons[j].images[i].file` keys? -/
def keyIsFile : FieldKey → Bool
  | .imageFile _ _ => true
  | _ => false

/-- Number of file fields in the payload. -/
def countFileFields : Dict → ℕ
  | [] => 0
  | (_, v) :: rest => (if isFileVal v then 1 else 0) + countFileFields rest

/-- Every stored value is a file value exactly when its key is a file key. -/
def wellShaped (d : Dict) : Prop :=
  ∀ p ∈ d, isFileVal p.2 = keyIsFile p.1

theorem dictFind_dictSet_self (d : Dict) (k : FieldKey) (v : FieldVal) :
    dictFind (dictSet d k v) k = some v := by
  induction d with
  | nil => simp [dictSet, dictFind]
  | cons hd tl ih =>
    obtain ⟨ka, va⟩ := hd
    by_cases h : ka = k
    · rw [show dictSet ((ka, va) :: tl) k v =
        (if ka = k then (k, v) :: tl else (ka, va) :: dictSet tl k v) from rfl,
        if_pos h]
      simp [dictFind]
    · rw [show dictSet ((ka, va) :: tl) k v =
        (if ka = k then (k, v) :: tl else (ka, va) :: dictSet tl k v) from rfl,
        if_neg h]
      rw [show dictFind ((ka, va) :: dictSet tl k v) k =
        (if ka = k then some va else dictFind (dictSet tl k v) k) from rfl,
        if_neg h]
      exact ih

theorem dictFind_dictSet_ne (d : Dict) (k k2 : FieldKey) (v : FieldVal)
    (h : k2 ≠ k) : dictFind (dictSet d k v) k2 = dictFind d k2 := by
  have hkk : ¬ (k = k2) := fun he => h he.symm
  induction d with
  | nil => simp [dictSet, dictFind, hkk]
  | cons hd tl ih =>
    obtain ⟨ka, va⟩ := hd
    rw [show dictSet ((ka, va) :: tl) k v =
      (if ka = k then (k, v) :: tl else (ka, va) :: dictSet tl k v) from rfl]
    by_cases h1 : ka = k
    · rw [if_pos h1]
      rw [show dictFind ((k, v) :: tl) k2 =
        (if k = k2 then some v else dictFind tl k2) from rfl, if_neg hkk]
      rw [show dictFind ((ka, va) :: tl) k2 =
        (if ka = k2 then some va else dictFind tl k2) from rfl]
      have h2 : ¬ (ka = k2) := by rw [h1]; exact hkk
      rw [if_neg h2]
    · rw [if_neg h1]
      rw [show dictFind ((ka, va) :: dictSet tl k v) k2 =
        (if ka = k2 then some va else dictFind (dictSet tl k v) k2) from rfl]
      rw [show dictFind ((ka, va) :: tl) k2 =
        (if ka = k2 then some va else dictFind tl k2) from rfl]
      by_cases h2 : ka = k2
      · rw [if_pos h2, if_pos h2]
      · rw [if_neg h2, if_neg h2, ih]

theorem hasKey_dictSet_ne (d : Dict) (k k2 : FieldKey) (v : FieldVal)
    (h : k2 ≠ k) : hasKey (dictSet d k v) k2 = hasKey d k2 := by
  have hkk : ¬ (k = k2) := fun he => h he.symm
  induction d with
  | nil => simp [dictSet, hasKey, hkk]
  | cons hd tl ih =>
    obtain ⟨ka, va⟩ := hd
    rw [show dictSet ((ka, va) :: tl) k v =
      (if ka = k then (k, v) :: tl else (ka, va) :: dictSet tl k v) from rfl]
    by_cases h1 : ka = k
    · rw [if_pos h1]
      rw [show hasKey ((k, v) :: tl) k2 = (decide (k = k2) || hasKey tl k2) from rfl]
      rw [show hasKey ((ka, va) :: tl) k2 = (decide (ka = k2) || hasKey tl k2) from rfl]
      rw [h1]
    · rw [if_neg h1]
      rw [show hasKey ((ka, va) :: dictSet tl k v) k2 =
        (decide (ka = k2) || hasKey (dictSet tl k v) k2) from rfl]
      rw [show hasKey ((ka, va) :: tl) k2 = (decide (ka = k2) || hasKey tl k2) from rfl]
      rw [ih]

theorem wellShaped_dictSet {d : Dict} (hws : wellShaped d) {k : FieldKey}
    {v : FieldVal} (hv : isFileVal v = keyIsFile k) :
    wellShaped (dictSet d k v) := by
  induction d with
  | nil =>
    intro p hp
    rw [show dictSet [] k v = [(k, v)] from rfl] at hp
    rw [List.mem_singleton.mp hp]
    exact hv
  | cons hd tl ih =>
    obtain ⟨ka, va⟩ := hd
    intro p hp
    rw [show dictSet ((ka, va) :: tl) k v =
      (if ka = k then (k, v) :: tl else (ka, va) :: dictSet tl k v) from rfl] at hp
    by_cases h1 : ka = k
    · rw [if_pos h1] at hp
      rcases List.mem_cons.mp hp with h | h
      · rw [h]; exact hv
      · exact hws p (List.mem_cons_of_mem _ h)
    · rw [if_neg h1] at hp
      rcases List.mem_cons.mp hp with h | h
      · rw [h]; exact hws (ka, va) (List.mem_cons_self _ _)
      · exact ih (fun q hq => hws q (List.mem_cons_of_mem _ hq)) p h

theorem countFileFields_dictSet_nonfile {d : Dict} (hws : wellShaped d)
    {k : FieldKey} {v : FieldVal} (hk : keyIsFile k = false)
    (hv : isFileVal v = false) :
    countFileFields (dictSet d k v) = countFileFields d := by
  induction d with
  | nil => simp [dictSet, countFileFields, hv]
  | cons hd tl ih =>
    obtain ⟨ka, va⟩ := hd
    rw [show dictSet ((ka, va) :: tl) k v =
      (if ka = k then (k, v) :: tl else (ka, va) :: dictSet tl k v) from rfl]
    by_cases h1 : ka = k
    · rw [if_pos h1]
      have hold : isFileVal va = false := by
        have := hws (ka, va) (List.mem_cons_self _ _)
        rw [this, h1, hk]
      rw [show countFileFields ((k, v) :: tl) =
        (if isFileVal v then 1 else 0) + countFileFields tl from rfl]
      rw [show countFileFields ((ka, va) :: tl) =
        (if isFileVal va then 1 else 0) + countFileFields tl from rfl]
      rw [hv, hold]
    · rw [if_neg h1]
      rw [show countFileFields ((ka, va) :: dictSet tl k v) =
        (if isFileVal va then 1 else 0) + countFileFields (dictSet tl k v) from rfl]
      rw [show countFileFields ((ka, va) :: tl) =
        (if isFileVal va then 1 else 0) + countFileFields tl from rfl]
      rw [ih (fun q hq => hws q (List.mem_cons_of_mem _ hq))]

theorem countFileFields_dictSet_file_fresh {d : Dict} {k : FieldKey}
    {v : FieldVal} (hfresh : hasKey d k = false) (hv : isFileVal v = true) :
    countFileFields (dictSet d k v) = countFileFields d + 1 := by
  induction d with
  | nil => simp [dictSet, countFileFields, hv]
  | cons hd tl ih =>
    obtain ⟨ka, va⟩ := hd
    rw [show hasKey ((ka, va) :: tl) k = (decide (ka = k) || hasKey tl k) from rfl] at hfresh
    rcases Bool.or_eq_false_iff.mp hfresh with ⟨hne, htl⟩
    have h1 : ¬ (ka = k) := of_decide_eq_false hne
    rw [show dictSet ((ka, va) :: tl) k v =
      (if ka = k then (k, v) :: tl else (ka, va) :: dictSet tl k v) from rfl, if_neg h1]
    rw [show countFileFields ((ka, va) :: dictSet tl k v) =
      (if isFileVal va then 1 else 0) + countFileFields (dictSet tl k v) from rfl]
    rw [show countFileFields ((ka, va) :: tl) =
      (if isFileVal va then 1 else 0) + countFileFields tl from rfl]
    rw [ih htl]
    omega

/-- Inner loop of the payload build, comp.py lines 248-251: for source
number `i` named `name`, add for each `(image, frame)` pair (position `j`)
the frame label, the source-name field and the file field. -/
def addImages (readBytes : String → String) (i : ℕ) (name : String) :
    ℕ → List (String × ℕ) → Dict → Dict
  | _, [], d => d
  | j, (image, frame) :: rest, d =>
    addImages readBytes i name (j + 1) rest
      (dictSet (dictSet (dictSet d (.compName j) (.str (pyNatStr frame)))
        (.imageName j i) (.str name))
        (.imageFile j i) (.file image (readBytes image) "image/png"))

/-- Outer loop of the payload build, comp.py lines 244-247: enumerate the
sources (clip names plus, when diffing, the synthetic `diff` source), each
with its ordered image list, zipped against the frame list. -/
def addAllSources (readBytes : String → String) :
    ℕ → List (String × List String) → List ℕ → Dict → Dict
  | _, [], _, d => d
  | i, (name, images) :: rest, frames, d =>
    addAllSources readBytes (i + 1) rest frames
      (addImages readBytes i name 0 (images.zip frames) d)

/-- The four collection-level fields, comp.py lines 237-242. -/
def baseFields (collection_name : String) (is_public : Bool) : Dict :=
  [(.collectionName, .str collection_name),
   (.public, .str (pyBoolStr is_public)),
   (.optimizeImages, .str "true"),
   (.hentai, .str "false")]

/-- The complete multipart payload of comp.py lines 237-251. -/
def buildFields (readBytes : String → String) (collection_name : String)
    (is_public : Bool) (sources : List (String × List String))
    (frames : List ℕ) : Dict :=
  addAllSources readBytes 0 sources frames (baseFields collection_name is_public)

/-- A key that the inner loop for source `i`, starting at position `j`,
never writes. -/
def untouchedKey (i j : ℕ) (k : FieldKey) : Prop :=
  ∀ m, j ≤ m → k ≠ .compName m ∧ k ≠ .imageName m i ∧ k ≠ .imageFile m i

theorem addImages_find_untouched (rb : String → String) (i : ℕ) (name : String) :
    ∀ (pairs : List (String × ℕ)) (j : ℕ) (d : Dict) (k : FieldKey),
      untouchedKey i j k →
      dictFind (addImages rb i name j pairs d) k = dictFind d k := by
  intro pairs
  induction pairs with
  | nil => intro j d k _; rfl
  | cons hd tl ih =>
    intro j d k hk
    obtain ⟨img, fr⟩ := hd
    rw [show addImages rb i name j ((img, fr) :: tl) d =
      addImages rb i name (j + 1) tl
        (dictSet (dictSet (dictSet d (.compName j) (.str (pyNatStr fr)))
          (.imageName j i) (.str name))
          (.imageFile j i) (.file img (rb img) "image/png")) from rfl]
    rw [ih (j + 1) _ k (fun m hm => hk m (by omega))]
    obtain ⟨h1, h2, h3⟩ := hk j le_rfl
    rw [dictFind_dictSet_ne _ _ _ _ h3, dictFind_dictSet_ne _ _ _ _ h2,
      dictFind_dictSet_ne _ _ _ _ h1]

theorem addImages_hasKey_untouched (rb : String → String) (i : ℕ) (name : String) :
    ∀ (pairs : List (String × ℕ)) (j : ℕ) (d : Dict) (k : FieldKey),
      untouchedKey i j k →
      hasKey (addImages rb i name j pairs d) k = hasKey d k := by
  intro pairs
  induction pairs with
  | nil => intro j d k _; rfl
  | cons hd tl ih =>
    intro j d k hk
    obtain ⟨img, fr⟩ := hd
    rw [show addImages rb i name j ((img, fr) :: tl) d =
      addImages rb i name (j + 1) tl
        (dictSet (dictSet (dictSet d (.compName j) (.str (pyNatStr fr)))
          (.imageName j i) (.str name))
          (.imageFile j i) (.file img (rb img) "image/png")) from rfl]
    rw [ih (j + 1) _ k (fun m hm => hk m (by omega))]
    obtain ⟨h1, h2, h3⟩ := hk j le_rfl
    rw [hasKey_dictSet_ne _ _ _ _ h3, hasKey_dictSet_ne _ _ _ _ h2,
      hasKey_dictSet_ne _ _ _ _ h1]

theorem addImages_find_compName (rb : String → String) (i : ℕ) (name : String) :
    ∀ (pairs : List (String × ℕ)) (j : ℕ) (d : Dict) (j2 : ℕ)
      (h : j2 < pairs.length),
      dictFind (addImages rb i name j pairs d) (.compName (j + j2)) =
        some (.str (pyNatStr (pairs.get ⟨j2, h⟩).2)) := by
  intro pairs
  induction pairs with
  | nil =>
    intro j d j2 h
    exact absurd h (by simp)
  | cons hd tl ih =>
    intro j d j2 h
    obtain ⟨img, fr⟩ := hd
    rw [show addImages rb i name j ((img, fr) :: tl) d =
      addImages rb i name (j + 1) tl
        (dictSet (dictSet (dictSet d (.compName j) (.str (pyNatStr fr)))
          (.imageName j i) (.str name))
          (.imageFile j i) (.file img (rb img) "image/png")) from rfl]
    cases j2 with
    | zero =>
      rw [addImages_find_untouched rb i name tl (j + 1) _ (.compName (j + 0))
        (by
          intro m hm
          refine ⟨?_, ?_, ?_⟩
          · intro he
            injection he with he2
            omega
          · intro he; cases he
          · intro he; cases he)]
      rw [dictFind_dictSet_ne _ _ _ _ (by intro he; cases he),
        dictFind_dictSet_ne _ _ _ _ (by intro he; cases he)]
      rw [show j + 0 = j from rfl]
      exact dictFind_dictSet_self _ _ _
    | succ s =>
      rw [show j + (s + 1) = (j + 1) + s by omega]
      exact ih (j + 1) _ s (by simpa using Nat.lt_of_succ_lt_succ h)

theorem addImages_find_imageName (rb : String → String) (i : ℕ) (name : String) :
    ∀ (pairs : List (String × ℕ)) (j : ℕ) (d : Dict) (j2 : ℕ),
      j2 < pairs.length →
      dictFind (addImages rb i name j pairs d) (.imageName (j + j2) i) =
        some (.str name) := by
  intro pairs
  induction pairs with
  | nil =>
    intro j d j2 h
    exact absurd h (by simp)
  | cons hd tl ih =>
    intro j d j2 h
    obtain ⟨img, fr⟩ := hd
    rw [show addImages rb i name j ((img, fr) :: tl) d =
      addImages rb i name (j + 1) tl
        (dictSet (dictSet (dictSet d (.compName j) (.str (pyNatStr fr)))
          (.imageName j i) (.str name))
          (.imageFile j i) (.file img (rb img) "image/png")) from rfl]
    cases j2 with
    | zero =>
      rw [addImages_find_untouched rb i name tl (j + 1) _ (.imageName (j + 0) i)
        (by
          intro m hm
          refine ⟨?_, ?_, ?_⟩
          · intro he; cases he
          · intro he
            injection he with he2 he3
            omega
          · intro he; cases he)]
      rw [dictFind_dictSet_ne _ _ _ _ (by intro he; cases he)]
      rw [show j + 0 = j from rfl]
      exact dictFind_dictSet_self _ _ _
    | succ s =>
      rw [show j + (s + 1) = (j + 1) + s by omega]
      exact ih (j + 1) _ s (by simpa using Nat.lt_of_succ_lt_succ h)

theorem addImages_find_imageFile (rb : String → String) (i : ℕ) (name : String) :
    ∀ (pairs : List (String × ℕ)) (j : ℕ) (d : Dict) (j2 : ℕ)
      (h : j2 < pairs.length),
      dictFind (addImages rb i name j pairs d) (.imageFile (j + j2) i) =
        some (.file (pairs.get ⟨j2, h⟩).1 (rb (pairs.get ⟨j2, h⟩).1) "image/png") := by
  intro pairs
  induction pairs with
  | nil =>
    intro j d j2 h
    exact absurd h (by simp)
  | cons hd tl ih =>
    intro j d j2 h
    obtain ⟨img, fr⟩ := hd
    rw [show addImages rb i name j ((img, fr) :: tl) d =
      addImages rb i name (j + 1) tl
        (dictSet (dictSet (dictSet d (.compName j) (.str (pyNatStr fr)))
          (.imageName j i) (.str name))
          (.imageFile j i) (.file img (rb img) "image/png")) from rfl]
    cases j2 with
    | zero =>
      rw [addImages_find_untouched rb i name tl (j + 1) _ (.imageFile (j + 0) i)
        (by
          intro m hm
          refine ⟨?_, ?_, ?_⟩
          · intro he; cases he
          · intro he; cases he
          · intro he
            injection he with he2 he3
            omega)]
      rw [show j + 0 = j from rfl]
      exact dictFind_dictSet_self _ _ _
    | succ s =>
      rw [show j + (s + 1) = (j + 1) + s by omega]
      exact ih (j + 1) _ s (by simpa using Nat.lt_of_succ_lt_succ h)

theorem addImages_count (rb : String → String) (i : ℕ) (name : String) :
    ∀ (pairs : List (String × ℕ)) (j : ℕ) (d : Dict), wellShaped d →
      (∀ j2, j ≤ j2 → hasKey d (.imageFile j2 i) = false) →
      countFileFields (addImages rb i name j pairs d) =
        countFileFields d + pairs.length ∧
      wellShaped (addImages rb i name j pairs d) := by
  intro pairs
  induction pairs with
  | nil =>
    intro j d hws _
    exact ⟨by rw [show addImages rb i name j [] d = d from rfl]; simp, hws⟩
  | cons hd tl ih =>
    intro j d hws hf
    obtain ⟨img, fr⟩ := hd
    have ws1 : wellShaped (dictSet d (.compName j) (.str (pyNatStr fr))) :=
      wellShaped_dictSet hws rfl
    have ws2 : wellShaped (dictSet (dictSet d (.compName j) (.str (pyNatStr fr)))
        (.imageName j i) (.str name)) :=
      wellShaped_dictSet ws1 rfl
    have ws3 : wellShaped (dictSet (dictSet (dictSet d (.compName j)
        (.str (pyNatStr fr))) (.imageName j i) (.str name))
        (.imageFile j i) (.file img (rb img) "image/png")) :=
      wellShaped_dictSet ws2 rfl
    have c1 : countFileFields (dictSet d (.compName j) (.str (pyNatStr fr))) =
        countFileFields d :=
      countFileFields_dictSet_nonfile hws rfl rfl
    have c2 : countFileFields (dictSet (dictSet d (.compName j)
        (.str (pyNatStr fr))) (.imageName j i) (.str name)) =
        countFileFields (dictSet d (.compName j) (.str (pyNatStr fr))) :=
      countFileFields_dictSet_nonfile ws1 rfl rfl
    have fresh3 : hasKey (dictSet (dictSet d (.compName j) (.str (pyNatStr fr)))
        (.imageName j i) (.str name)) (.imageFile j i) = false := by
      rw [hasKey_dictSet_ne _ _ _ _ (by intro he; cases he),
        hasKey_dictSet_ne _ _ _ _ (by intro he; cases he)]
      exact hf j le_rfl
    have c3 : countFileFields (dictSet (dictSet (dictSet d (.compName j)
        (.str (pyNatStr fr))) (.imageName j i) (.str name))
        (.imageFile j i) (.file img (rb img) "image/png")) =
        countFileFields (dictSet (dictSet d (.compName j) (.str (pyNatStr fr)))
          (.imageName j i) (.str name)) + 1 :=
      countFileFields_dictSet_file_fresh fresh3 rfl
    have freshRec : ∀ j2, j + 1 ≤ j2 →
        hasKey (dictSet (dictSet (dictSet d (.compName j) (.str (pyNatStr fr)))
          (.imageName j i) (.str name))
          (.imageFile j i) (.file img (rb img) "image/png"))
          (.imageFile j2 i) = false := by
      intro j2 hj2
      rw [hasKey_dictSet_ne _ _ _ _ (by intro he; injection he with he2 he3; omega),
        hasKey_dictSet_ne _ _ _ _ (by intro he; cases he),
        hasKey_dictSet_ne _ _ _ _ (by intro he; cases he)]
      exact hf j2 (by omega)
    obtain ⟨ihc, ihws⟩ := ih (j + 1) _ ws3 freshRec
    constructor
    · rw [show addImages rb i name j ((img, fr) :: tl) d =
        addImages rb i name (j + 1) tl
          (dictSet (dictSet (dictSet d (.compName j) (.str (pyNatStr fr)))
            (.imageName j i) (.str name))
            (.imageFile j i) (.file img (rb img) "image/png")) from rfl]
      rw [ihc, c3, c2, c1]
      simp
      omega
    · rw [show addImages rb i name j ((img, fr) :: tl) d =
        addImages rb i name (j + 1) tl
          (dictSet (dictSet (dictSet d (.compName j) (.str (pyNatStr fr)))
            (.imageName j i) (.str name))
            (.imageFile j i) (.file img (rb img) "image/png")) from rfl]
      exact ihws

set_option maxHeartbeats 2000000 in
/-- Claim C9: for a two-clip run with diffing over `N` frames, the payload
contains the three collection-level flags (with `public` rendered as the
string `true` or `false`) plus the collection name; for every frame position
`j` it contains one frame-label field holding the decimal rendering of the
frame index and, for each of the three sources (clip A, clip B, diff), one
source-name field and one file field carrying the image bytes; the number of
file fields is exactly `3 * N`. -/
theorem C9_payload (rb : String → String) (cname : String) (pub : Bool)
    (aName bName : String) (ia ib idf : List String) (frames : List ℕ) (N : ℕ)
    (hN : frames.length = N) (ha : ia.length = N) (hb : ib.length = N)
    (hdf : idf.length = N) :
    countFileFields
      (buildFields rb cname pub [(aName, ia), (bName, ib), ("diff", idf)] frames) =
      3 * N ∧
    dictFind (buildFields rb cname pub [(aName, ia), (bName, ib), ("diff", idf)]
      frames) .collectionName = some (.str cname) ∧
    dictFind (buildFields rb cname pub [(aName, ia), (bName, ib), ("diff", idf)]
      frames) .public = some (.str (pyBoolStr pub)) ∧
    dictFind (buildFields rb cname pub [(aName, ia), (bName, ib), ("diff", idf)]
      frames) .optimizeImages = some (.str "true") ∧
    dictFind (buildFields rb cname pub [(aName, ia), (bName, ib), ("diff", idf)]
      frames) .hentai = some (.str "false") ∧
    (∀ j, j < N →
      dictFind (buildFields rb cname pub [(aName, ia), (bName, ib), ("diff", idf)]
        frames) (.compName j) = some (.str (pyNatStr (frames.getD j 0)))) ∧
    (∀ j, j < N →
      dictFind (buildFields rb cname pub [(aName, ia), (bName, ib), ("diff", idf)]
        frames) (.imageName j 0) = some (.str aName)) ∧
    (∀ j, j < N →
      dictFind (buildFields rb cname pub [(aName, ia), (bName, ib), ("diff", idf)]
        frames) (.imageName j 1) = some (.str bName)) ∧
    (∀ j, j < N →
      dictFind (buildFields rb cname pub [(aName, ia), (bName, ib), ("diff", idf)]
        frames) (.imageName j 2) = some (.str "diff")) ∧
    (∀ j, j < N →
      dictFind (buildFields rb cname pub [(aName, ia), (bName, ib), ("diff", idf)]
        frames) (.imageFile j 0) =
        some (.file (ia.getD j "") (rb (ia.getD j "")) "image/png")) ∧
    (∀ j, j < N →
      dictFind (buildFields rb cname pub [(aName, ia), (bName, ib), ("diff", idf)]
        frames) (.imageFile j 1) =
        some (.file (ib.getD j "") (rb (ib.getD j "")) "image/png")) ∧
    (∀ j, j < N →
      dictFind (buildFields rb cname pub [(aName, ia), (bName, ib), ("diff", idf)]
        frames) (.imageFile j 2) =
        some (.file (idf.getD j "") (rb (idf.getD j "")) "image/png")) := by
  have hza : (ia.zip frames).length = N := by
    rw [List.length_zip, ha, hN]; simp
  have hzb : (ib.zip frames).length = N := by
    rw [List.length_zip, hb, hN]; simp
  have hzd : (idf.zip frames).length = N := by
    rw [List.length_zip, hdf, hN]; simp
  have heq : buildFields rb cname pub [(aName, ia), (bName, ib), ("diff", idf)]
      frames =
      addImages rb 2 "diff" 0 (idf.zip frames)
        (addImages rb 1 bName 0 (ib.zip frames)
          (addImages rb 0 aName 0 (ia.zip frames) (baseFields cname pub))) := rfl
  have hws0 : wellShaped (baseFields cname pub) := by
    intro p hp
    simp only [baseFields, List.mem_cons, List.not_mem_nil, or_false] at hp
    rcases hp with h | h | h | h <;> rw [h] <;> rfl
  have hf0 : ∀ i j2, hasKey (baseFields cname pub) (.imageFile j2 i) = false := by
    intro i j2
    rfl
  have hc1 := addImages_count rb 0 aName (ia.zip frames) 0 (baseFields cname pub)
    hws0 (fun j2 _ => hf0 0 j2)
  have hf1 : ∀ j2, hasKey (addImages rb 0 aName 0 (ia.zip frames)
      (baseFields cname pub)) (.imageFile j2 1) = false := by
    intro j2
    rw [addImages_hasKey_untouched rb 0 aName (ia.zip frames) 0 _ _
      (by
        intro m hm
        refine ⟨?_, ?_, ?_⟩
        · intro he; cases he
        · intro he; cases he
        · intro he; injection he with he2 he3; omega)]
    exact hf0 1 j2
  have hc2 := addImages_count rb 1 bName (ib.zip frames) 0 _ hc1.2
    (fun j2 _ => hf1 j2)
  have hf2 : ∀ j2, hasKey (addImages rb 1 bName 0 (ib.zip frames)
      (addImages rb 0 aName 0 (ia.zip frames) (baseFields cname pub)))
      (.imageFile j2 2) = false := by
    intro j2
    rw [addImages_hasKey_untouched rb 1 bName (ib.zip frames) 0 _ _
      (by
        intro m hm
        refine ⟨?_, ?_, ?_⟩
        · intro he; cases he
        · intro he; cases he
        · intro he; injection he with he2 he3; omega)]
    rw [addImages_hasKey_untouched rb 0 aName (ia.zip frames) 0 _ _
      (by
        intro m hm
        refine ⟨?_, ?_, ?_⟩
        · intro he; cases he
        · intro he; cases he
        · intro he; injection he with he2 he3; omega)]
    exact hf0 2 j2
  have hc3 := addImages_count rb 2 "diff" (idf.zip frames) 0 _ hc2.2
    (fun j2 _ => hf2 j2)
  have hbase0 : countFileFields (baseFields cname pub) = 0 := rfl
  have untouchedBase : ∀ (i : ℕ) (k : FieldKey),
      (∀ m i2, k ≠ .compName m ∧ k ≠ .imageName m i2 ∧ k ≠ .imageFile m i2) →
      untouchedKey i 0 k := by
    intro i k hk m _
    exact hk m i
  have findBase : ∀ k : FieldKey,
      (∀ m i2, k ≠ .compName m ∧ k ≠ .imageName m i2 ∧ k ≠ .imageFile m i2) →
      dictFind (addImages rb 2 "diff" 0 (idf.zip frames)
        (addImages rb 1 bName 0 (ib.zip frames)
          (addImages rb 0 aName 0 (ia.zip frames) (baseFields cname pub)))) k =
      dictFind (baseFields cname pub) k := by
    intro k hk
    rw [addImages_find_untouched rb 2 "diff" (idf.zip frames) 0 _ k
        (untouchedBase 2 k hk),
      addImages_find_untouched rb 1 bName (ib.zip frames) 0 _ k
        (untouchedBase 1 k hk),
      addImages_find_untouched rb 0 aName (ia.zip frames) 0 _ k
        (untouchedBase 0 k hk)]
  refine ⟨?_, ?_, ?_, ?_, ?_, ?_, ?_, ?_, ?_, ?_, ?_, ?_⟩
  · rw [heq, hc3.1, hc2.1, hc1.1, hbase0, hza, hzb, hzd]
    omega
  · rw [heq, findBase .collectionName
      (by intro m i2; refine ⟨?_, ?_, ?_⟩ <;> (intro he; cases he))]
    rfl
  · rw [heq, findBase .public
      (by intro m i2; refine ⟨?_, ?_, ?_⟩ <;> (intro he; cases he))]
    rfl
  · rw [heq, findBase .optimizeImages
      (by intro m i2; refine ⟨?_, ?_, ?_⟩ <;> (intro he; cases he))]
    rfl
  · rw [heq, findBase .hentai
      (by intro m i2; refine ⟨?_, ?_, ?_⟩ <;> (intro he; cases he))]
    rfl
  · intro j hj
    rw [heq]
    have hjz : j < (idf.zip frames).length := by omega
    have h := addImages_find_compName rb 2 "diff" (idf.zip frames) 0
      (addImages rb 1 bName 0 (ib.zip frames)
        (addImages rb 0 aName 0 (ia.zip frames) (baseFields cname pub)))
      j hjz
    rw [Nat.zero_add] at h
    have hel : ((idf.zip frames).get ⟨j, hjz⟩).2 = frames.getD j 0 := by
      rw [List.get_eq_getElem, List.getElem_zip,
        List.getD_eq_getElem frames 0 (by omega)]
    rw [h, hel]
  · intro j hj
    rw [heq]
    rw [addImages_find_untouched rb 2 "diff" (idf.zip frames) 0 _ (.imageName j 0)
      (by
        intro m hm
        refine ⟨?_, ?_, ?_⟩
        · intro he; cases he
        · intro he; injection he with he2 he3; omega
        · intro he; cases he)]
    rw [addImages_find_untouched rb 1 bName (ib.zip frames) 0 _ (.imageName j 0)
      (by
        intro m hm
        refine ⟨?_, ?_, ?_⟩
        · intro he; cases he
        · intro he; injection he with he2 he3; omega
        · intro he; cases he)]
    have h := addImages_find_imageName rb 0 aName (ia.zip frames) 0
      (baseFields cname pub) j (by omega)
    rw [Nat.zero_add] at h
    exact h
  · intro j hj
    rw [heq]
    rw [addImages_find_untouched rb 2 "diff" (idf.zip frames) 0 _ (.imageName j 1)
      (by
        intro m hm
        refine ⟨?_, ?_, ?_⟩
        · intro he; cases he
        · intro he; injection he with he2 he3; omega
        · intro he; cases he)]
    have h := addImages_find_imageName rb 1 bName (ib.zip frames) 0
      (addImages rb 0 aName 0 (ia.zip frames) (baseFields cname pub)) j (by omega)
    rw [Nat.zero_add] at h
    exact h
  · intro j hj
    rw [heq]
    have h := addImages_find_imageName rb 2 "diff" (idf.zip frames) 0
      (addImages rb 1 bName 0 (ib.zip frames)
        (addImages rb 0 aName 0 (ia.zip frames) (baseFields cname pub)))
      j (by omega)
    rw [Nat.zero_add] at h
    exact h
  · intro j hj
    rw [heq]
    rw [addImages_find_untouched rb 2 "diff" (idf.zip frames) 0 _ (.imageFile j 0)
      (by
        intro m hm
        refine ⟨?_, ?_, ?_⟩
        · intro he; cases he
        · intro he; cases he
        · intro he; injection he with he2 he3; omega)]
    rw [addImages_find_untouched rb 1 bName (ib.zip frames) 0 _ (.imageFile j 0)
      (by
        intro m hm
        refine ⟨?_, ?_, ?_⟩
        · intro he; cases he
        · intro he; cases he
        · intro he; injection he with he2 he3; omega)]
    have hjz : j < (ia.zip frames).length := by omega
    have h := addImages_find_imageFile rb 0 aName (ia.zip frames) 0
      (baseFields cname pub) j hjz
    rw [Nat.zero_add] at h
    have hel : ((ia.zip frames).get ⟨j, hjz⟩).1 = ia.getD j "" := by
      rw [List.get_eq_getElem, List.getElem_zip,
        List.getD_eq_getElem ia "" (by omega)]
    rw [h, hel]
  · intro j hj
    rw [heq]
    rw [addImages_find_untouched rb 2 "diff" (idf.zip frames) 0 _ (.imageFile j 1)
      (by
        intro m hm
        refine ⟨?_, ?_, ?_⟩
        · intro he; cases he
        · intro he; cases he
        · intro he; injection he with he2 he3; omega)]
    have hjz : j < (ib.zip frames).length := by omega
    have h := addImages_find_imageFile rb 1 bName (ib.zip frames) 0
      (addImages rb 0 aName 0 (ia.zip frames) (baseFields cname pub)) j hjz
    rw [Nat.zero_add] at h
    have hel : ((ib.zip frames).get ⟨j, hjz⟩).1 = ib.getD j "" := by
      rw [List.get_eq_getElem, List.getElem_zip,
        List.getD_eq_getElem ib "" (by omega)]
    rw [h, hel]
  · intro j hj
    rw [heq]
    have hjz : j < (idf.zip frames).length := by omega
    have h := addImages_find_imageFile rb 2 "diff" (idf.zip frames) 0
      (addImages rb 1 bName 0 (ib.zip frames)
        (addImages rb 0 aName 0 (ia.zip frames) (baseFields cname pub)))
      j hjz
    rw [Nat.zero_add] at h
    have hel : ((idf.zip frames).get ⟨j, hjz⟩).1 = idf.getD j "" := by
      rw [List.get_eq_getElem, List.getElem_zip,
        List.getD_eq_getElem idf "" (by omega)]
    rw [h, hel]

/-- Witness for C9 at one frame (`N = 1`), sources `a`, `b` and `diff`. -/
theorem C9_payload_witness :
    countFileFields (buildFields id "c" false [("a", ["fa"]), ("b", ["fb"]),
      ("diff", ["fd"])] [12]) = 3 * 1 ∧
    dictFind (buildFields id "c" false [("a", ["fa"]), ("b", ["fb"]),
      ("diff", ["fd"])] [12]) .public = some (.str (pyBoolStr false)) ∧
    dictFind (buildFields id "c" false [("a", ["fa"]), ("b", ["fb"]),
      ("diff", ["fd"])] [12]) (.compName 0) =
      some (.str (pyNatStr (([12] : List ℕ).getD 0 0))) ∧
    dictFind (buildFields id "c" false [("a", ["fa"]), ("b", ["fb"]),
      ("diff", ["fd"])] [12]) (.imageFile 0 2) =
      some (.file ((["fd"] : List String).getD 0 "")
        (id ((["fd"] : List String).getD 0 "")) "image/png") :=
  have h := C9_payload id "c" false "a" "b" ["fa"] ["fb"] ["fd"] [12] 1
    rfl rfl rfl rfl
  ⟨h.1, h.2.2.1, h.2.2.2.2.2.1 0 (by omega), h.2.2.2.2.2.2.2.2.2.2.2 0 (by omega)⟩

/-! ## The make_comps pipeline (comp.py lines 106-270)

The function is modelled stage by stage, as a pure function of its inputs
plus an explicit environment: `fs` is the set of directories existing before
the call, `magickAvailable` models the probe `subprocess.call(['magick',
'compare'])`, `readBytes` models `image.read_bytes()`, `g` is the RNG
stream and `fuel` bounds the constrained selector.  The result is the raised
error (if any) together with the ordered trace of observable events.
Filesystem paths are represented as component lists, `glob('*.png')` returns
the files written earlier (their zero-padded names make lexicographic order
equal to generation order). -/

/-- comp.py lines 31-44. -/
inductive Writer where
  | FFMPEG : Writer
  | IMWRI : Writer
  | OPENCV : Writer
  deriving DecidableEq

/-- Exceptions make_comps can raise (each constructor names the source
line). -/
inductive MCErr where
  /-- line 117, clips of unequal length (`ValueError`) -/
  | unequalLengths : MCErr
  /-- line 124, `random.sample` with `num` larger than the population -/
  | sampleTooLarge : MCErr
  /-- line 289 via line 122 (`ValueError`) -/
  | selNotEnough : MCErr
  /-- line 308 via line 122 (`RecursionError`) -/
  | selMaxAttempts : MCErr
  /-- model artifact: selector fuel exhausted (the Python analogue is an RNG
  stream that never produces a fresh index) -/
  | selOutOfFuel : MCErr
  /-- line 129, `max()` of an empty set (`ValueError`) -/
  | emptySamples : MCErr
  /-- line 136, comparison root already exists -/
  | pathExists : MCErr
  /-- line 145, per-clip directory already exists -/
  | subPathExists (name : String) : MCErr
  /-- line 214, `magick compare` not found -/
  | magickNotFound : MCErr
  /-- line 207, diffing with more than two clips -/
  | magickTooManyClips : MCErr
  /-- line 216, diffs directory already exists -/
  | diffPathExists : MCErr
  /-- line 219, `images_a, images_b = all_images` with one clip -/
  | unpackMismatch : MCErr
  deriving DecidableEq

/-- Observable events of one make_comps run, in order. -/
inductive MCEvent where
  /-- sampling was performed (comp.py lines 120-124) -/
  | sampled : MCEvent
  /-- a directory was created -/
  | mkdir (dir : List String) : MCEvent
  /-- frames of one clip were written as PNG files (FFMPEG and OPENCV
  writers) -/
  | extracted (name : String) (files : List String) : MCEvent
  /-- frames of one clip were written through the imwri plugin pattern -/
  | extractedPattern (name : String) (pattern : String) : MCEvent
  /-- diff images were produced (comp.py lines 221-228) -/
  | diffed (files : List String) : MCEvent
  /-- the multipart payload was submitted (comp.py lines 253-262) -/
  | uploaded (fields : Dict) : MCEvent
  /-- the slow.pics.url shortcut file was written (comp.py lines 268-269) -/
  | wroteUrlFile : MCEvent
  deriving DecidableEq

/-- imwri file-name pattern, comp.py line 179. -/
def imwriPattern (name : String) (max_num : ℕ) : String :=
  name ++ "_%" ++ zfill (pyNatStr (padWidth max_num)) 2 ++ "d.png"

/-- Files the imwri writer produces: sequential counter, zero padded. -/
def imwriFiles (name : String) (n max_num : ℕ) : List String :=
  (List.range n).map fun s => name ++ "_" ++ zfill (pyNatStr s) (padWidth max_num) ++ ".png"

/-- Diff image file name, comp.py line 222. -/
def diffFileName (f max_num : ℕ) : String :=
  "diff_" ++ zfill (pyNatStr f) (padWidth max_num) ++ ".png"

/-- Extraction loop, comp.py lines 140-201: per clip, create the clip
directory (failing on collision) and write one PNG per selected frame.
Returns the error (if any), the event trace, the created directories and
the per-clip image lists. -/
def extractLoop (path : String) (writer : Writer) (fsorted : List ℕ)
    (max_num : ℕ) (fs : List (List String)) :
    List (String × Clip) → List (List String) → List MCEvent →
      List (String × List String) →
      Option MCErr × List MCEvent × List (List String) × List (String × List String)
  | [], created, evs, imgs => (none, evs, created, imgs)
  | (name, _) :: rest, created, evs, imgs =>
    if [path, name] ∈ fs ∨ [path, name] ∈ created then
      (some (.subPathExists name), evs, created, imgs)
    else
      match writer with
      | .IMWRI =>
        extractLoop path writer fsorted max_num fs rest ([path, name] :: created)
          (evs ++ [.mkdir [path, name],
            .extractedPattern name (imwriPattern name max_num)])
          (imgs ++ [(name, imwriFiles name fsorted.length max_num)])
      | _ =>
        extractLoop path writer fsorted max_num fs rest ([path, name] :: created)
          (evs ++ [.mkdir [path, name],
            .extracted name (fsorted.map fun f => imageFileName name f max_num)])
          (imgs ++ [(name, fsorted.map fun f => imageFileName name f max_num)])

/-- Diff stage, comp.py lines 204-228: reject more than two clips, probe the
magick binary, create the diffs directory (failing on collision), then (for
exactly two clips) produce one diff per frame pair; with a single clip the
`images_a, images_b` unpacking raises after the directory was created.
Returns the error (if any), the trace and whether diffs were produced. -/
def diffStage (magick_compare magickAvailable : Bool) (path : String)
    (fs created : List (List String)) (nclips : ℕ) (dfiles : List String)
    (evs : List MCEvent) : Option MCErr × List MCEvent × Bool :=
  if magick_compare then
    if nclips > 2 then (some .magickTooManyClips, evs, false)
    else if magickAvailable = false then (some .magickNotFound, evs, false)
    else if [path, "diffs"] ∈ fs ∨ [path, "diffs"] ∈ created then
      (some .diffPathExists, evs, false)
    else if nclips ≠ 2 then
      (some .unpackMismatch, evs ++ [.mkdir [path, "diffs"]], false)
    else (none, evs ++ [.mkdir [path, "diffs"], .diffed dfiles], true)
  else (none, evs, false)

/-- Sampling stage, comp.py lines 119-124: constrained sampling when a
(non-empty, hence truthy) picture-type filter is given, otherwise
`set(random.sample(range(L), num))`. -/
def sampleStage (clips : List (String × Clip)) (L num : ℕ)
    (picture_types : List String) (g : ℕ → ℕ) (fuel : ℕ) :
    Except MCErr (Finset ℕ) :=
  if picture_types ≠ [] then
    match select_samples_with_picture_types (clips.map fun c => c.2) L num
        picture_types g fuel with
    | .ok s => .ok s
    | .notEnough => .error .selNotEnough
    | .maxAttempts => .error .selMaxAttempts
    | .outOfFuel => .error .selOutOfFuel
  else if L < num then .error .sampleTooLarge
  else .ok (unconstrained_samples g L num)

/-- Continuation over the sampling outcome. -/
def mcOnSample (f : Finset ℕ → Option MCErr × List MCEvent) :
    Except MCErr (Finset ℕ) → Option MCErr × List MCEvent
  | .error e => (some e, [.sampled])
  | .ok s => f s

/-- Continuation over `max(samples)`. -/
def mcOnMax (f : ℕ → Option MCErr × List MCEvent) :
    Option ℕ → Option MCErr × List MCEvent
  | none => (some .emptySamples, [.sampled])
  | some m => f m

/-- Continuation over the extraction loop outcome. -/
def mcOnExtract
    (f : List MCEvent → List (List String) → List (String × List String) →
      Option MCErr × List MCEvent) :
    Option MCErr × List MCEvent × List (List String) × List (String × List String) →
      Option MCErr × List MCEvent
  | (some e, evs, _, _) => (some e, evs)
  | (none, evs, created, imgs) => f evs created imgs

/-- Continuation over the diff stage outcome. -/
def mcOnDiff (f : List MCEvent → Bool → Option MCErr × List MCEvent) :
    Option MCErr × List MCEvent × Bool → Option MCErr × List MCEvent
  | (some e, evs, _) => (some e, evs)
  | (none, evs, dh) => f evs dh

/-- Model of `make_comps` (comp.py lines 106-270). -/
def make_comps (clips : List (String × Clip)) (path : String) (num : ℕ)
    (frames : List ℕ) (picture_types : List String) (writer : Writer)
    (magick_compare slowpics : Bool) (collection_name : String)
    (is_public : Bool) (fs : List (List String)) (magickAvailable : Bool)
    (readBytes : String → String) (g : ℕ → ℕ) (fuel : ℕ) :
    Option MCErr × List MCEvent :=
  if (clips.map fun c => c.2.num_frames).toFinset.card ≠ 1 then
    (some .unequalLengths, [])
  else
    mcOnSample
      (fun samples0 =>
        mcOnMax
          (fun max_num =>
            if [path] ∈ fs then (some .pathExists, [.sampled])
            else
              mcOnExtract
                (fun evs created imgs =>
                  mcOnDiff
                    (fun evs2 diffHappened =>
                      if slowpics then
                        (none, evs2 ++
                          [.uploaded (buildFields readBytes collection_name
                            is_public
                            (imgs ++ (if diffHappened then
                              [("diff",
                                (sortedFrames (finalize_samples samples0 frames)
                                  (max_num + 1)).map fun f => diffFileName f max_num)]
                              else []))
                            (sortedFrames (finalize_samples samples0 frames)
                              (max_num + 1))),
                           .wroteUrlFile])
                      else (none, evs2))
                    (diffStage magick_compare magickAvailable path fs created
                      clips.length
                      ((sortedFrames (finalize_samples samples0 frames)
                        (max_num + 1)).map fun f => diffFileName f max_num) evs))
                (extractLoop path writer
                  (sortedFrames (finalize_samples samples0 frames) (max_num + 1))
                  max_num fs clips [[path]] [.sampled, .mkdir [path]] []))
          (finalize_samples samples0 frames).max)
      (sampleStage clips ((clips.map fun c => c.2.num_frames).headD 0) num
        picture_types g fuel)

/-- Claim C7: with two clips of differing lengths, make_comps fails with the
unequal-lengths `ValueError` before anything else happens — the event trace
is empty, so no sampling was performed, no directory created and no frame
extracted. -/
theorem C7_unequal_lengths (clips : List (String × Clip)) (path : String)
    (num : ℕ) (frames : List ℕ) (picture_types : List String) (writer : Writer)
    (magick_compare slowpics : Bool) (collection_name : String)
    (is_public : Bool) (fs : List (List String)) (magickAvailable : Bool)
    (readBytes : String → String) (g : ℕ → ℕ) (fuel : ℕ)
    (a b : String × Clip) (ha : a ∈ clips) (hb : b ∈ clips)
    (hne : a.2.num_frames ≠ b.2.num_frames) :
    make_comps clips path num frames picture_types writer magick_compare
      slowpics collection_name is_public fs magickAvailable readBytes g fuel =
      (some .unequalLengths, []) := by
  have hcard : 1 < ((clips.map fun c => c.2.num_frames).toFinset).card := by
    apply Finset.one_lt_card.mpr
    refine ⟨a.2.num_frames, ?_, b.2.num_frames, ?_, hne⟩
    · rw [List.mem_toFinset]
      exact List.mem_map.mpr ⟨a, ha, rfl⟩
    · rw [List.mem_toFinset]
      exact List.mem_map.mpr ⟨b, hb, rfl⟩
  rw [make_comps, if_pos (by omega)]

/-- Witness for C7: two one-second clips of lengths 2 and 3. -/
theorem C7_unequal_lengths_witness :
    make_comps [("a", ⟨2, fun _ => "I"⟩), ("b", ⟨3, fun _ => "I"⟩)] "comps" 15
      [] [] .OPENCV false false "" true [] true id (fun p => p) 10 =
      (some .unequalLengths, []) :=
  C7_unequal_lengths _ "comps" 15 [] [] .OPENCV false false "" true [] true id
    (fun p => p) 10 ("a", ⟨2, fun _ => "I"⟩) ("b", ⟨3, fun _ => "I"⟩)
    (List.mem_cons_self _ _) (List.mem_cons_of_mem _ (List.mem_cons_self _ _))
    (by decide)

/-- The events of a fully successful extraction pass over `cl` with the
OPENCV writer, in order. -/
def extractEvents (path : String) (fsorted : List ℕ) (max_num : ℕ) :
    List (String × Clip) → List MCEvent
  | [] => []
  | (name, _) :: rest =>
    [.mkdir [path, name],
     .extracted name (fsorted.map fun f => imageFileName name f max_num)] ++
    extractEvents path fsorted max_num rest

/-- The per-clip image lists of a fully successful extraction pass. -/
def extractImgs (fsorted : List ℕ) (max_num : ℕ) :
    List (String × Clip) → List (String × List String)
  | [] => []
  | (name, _) :: rest =>
    (name, fsorted.map fun f => imageFileName name f max_num) ::
    extractImgs fsorted max_num rest

theorem extractLoop_ok (path : String) (fsorted : List ℕ) (max_num : ℕ)
    (fs : List (List String)) :
    ∀ (cl : List (String × Clip)) (created : List (List String))
      (evs : List MCEvent) (imgs : List (String × List String)),
      (∀ nm ∈ cl.map Prod.fst, [path, nm] ∉ fs ∧ [path, nm] ∉ created) →
      (cl.map Prod.fst).Nodup →
      extractLoop path .OPENCV fsorted max_num fs cl created evs imgs =
        (none, evs ++ extractEvents path fsorted max_num cl,
         (cl.map fun nc => [path, nc.1]).reverse ++ created,
         imgs ++ extractImgs fsorted max_num cl) := by
  intro cl
  induction cl with
  | nil =>
    intro created evs imgs _ _
    simp [extractLoop, extractEvents, extractImgs]
  | cons hd tl ih =>
    intro created evs imgs hfresh hnodup
    obtain ⟨name, c⟩ := hd
    have hcond : ¬ ([path, name] ∈ fs ∨ [path, name] ∈ created) := by
      have := hfresh name (by simp)
      rcases this with ⟨h1, h2⟩
      rintro (h | h)
      · exact h1 h
      · exact h2 h
    rw [show extractLoop path .OPENCV fsorted max_num fs ((name, c) :: tl)
        created evs imgs =
      (if [path, name] ∈ fs ∨ [path, name] ∈ created then
        (some (.subPathExists name), evs, created, imgs)
      else
        extractLoop path .OPENCV fsorted max_num fs tl ([path, name] :: created)
          (evs ++ [.mkdir [path, name],
            .extracted name (fsorted.map fun f => imageFileName name f max_num)])
          (imgs ++ [(name, fsorted.map fun f => imageFileName name f max_num)]))
      from rfl, if_neg hcond]
    have hnodup2 : (tl.map Prod.fst).Nodup := by
      rw [List.map_cons, List.nodup_cons] at hnodup
      exact hnodup.2
    have hname_not : name ∉ tl.map Prod.fst := by
      rw [List.map_cons, List.nodup_cons] at hnodup
      exact hnodup.1
    rw [ih ([path, name] :: created)
      (evs ++ [MCEvent.mkdir [path, name],
        MCEvent.extracted name (fsorted.map fun f => imageFileName name f max_num)])
      (imgs ++ [(name, fsorted.map fun f => imageFileName name f max_num)])
      (by
        intro nm hnm
        have h0 := hfresh nm (by simp [hnm])
        refine ⟨h0.1, ?_⟩
        intro hmem
        rcases List.mem_cons.mp hmem with h | h
        · have : nm = name := by
            injection h with h1 h2
            injection h2 with h3 h4
          exact hname_not (this ▸ hnm)
        · exact h0.2 h)
      hnodup2]
    rw [show extractEvents path fsorted max_num ((name, c) :: tl) =
      [.mkdir [path, name],
       .extracted name (fsorted.map fun f => imageFileName name f max_num)] ++
      extractEvents path fsorted max_num tl from rfl]
    rw [show extractImgs fsorted max_num ((name, c) :: tl) =
      (name, fsorted.map fun f => imageFileName name f max_num) ::
      extractImgs fsorted max_num tl from rfl]
    simp [List.append_assoc]

theorem mcOnSample_ok (f : Finset ℕ → Option MCErr × List MCEvent)
    (s : Finset ℕ) : mcOnSample f (Except.ok s) = f s := rfl

theorem mcOnMax_some (f : ℕ → Option MCErr × List MCEvent) (m : ℕ) :
    mcOnMax f (some m) = f m := rfl

theorem mcOnExtract_none
    (f : List MCEvent → List (List String) → List (String × List String) →
      Option MCErr × List MCEvent)
    (evs : List MCEvent) (created : List (List String))
    (imgs : List (String × List String)) :
    mcOnExtract f (none, evs, created, imgs) = f evs created imgs := rfl

theorem mcOnDiff_err (f : List MCEvent → Bool → Option MCErr × List MCEvent)
    (e : MCErr) (evs : List MCEvent) (b : Bool) :
    mcOnDiff f (some e, evs, b) = (some e, evs) := rfl

theorem extractEvents_no_diffed (path : String) (fsorted : List ℕ)
    (max_num : ℕ) (d : List String) :
    ∀ cl, MCEvent.diffed d ∉ extractEvents path fsorted max_num cl := by
  intro cl
  induction cl with
  | nil => simp [extractEvents]
  | cons hd tl ih =>
    obtain ⟨name, c⟩ := hd
    rw [show extractEvents path fsorted max_num ((name, c) :: tl) =
      [.mkdir [path, name],
       .extracted name (fsorted.map fun f => imageFileName name f max_num)] ++
      extractEvents path fsorted max_num tl from rfl]
    intro hmem
    rcases List.mem_append.mp hmem with h | h
    · rcases List.mem_cons.mp h with h2 | h2
      · cases h2
      · rcases List.mem_cons.mp h2 with h3 | h3
        · cases h3
        · cases h3
    · exact ih h

theorem extractEvents_mem (path : String) (fsorted : List ℕ) (max_num : ℕ) :
    ∀ cl, ∀ nc ∈ cl,
      MCEvent.extracted nc.1 (fsorted.map fun f => imageFileName nc.1 f max_num) ∈
        extractEvents path fsorted max_num cl := by
  intro cl
  induction cl with
  | nil => intro nc h; cases h
  | cons hd tl ih =>
    obtain ⟨name, c⟩ := hd
    intro nc hnc
    rw [show extractEvents path fsorted max_num ((name, c) :: tl) =
      [.mkdir [path, name],
       .extracted name (fsorted.map fun f => imageFileName name f max_num)] ++
      extractEvents path fsorted max_num tl from rfl]
    rcases List.mem_cons.mp hnc with h | h
    · apply List.mem_append.mpr
      left
      rw [h]
      exact List.mem_cons_of_mem _ (List.mem_cons_self _ _)
    · exact List.mem_append.mpr (Or.inr (ih nc h))

/-- Counterexample to claim C8 as stated.  Three equal-length clips with
`magick_compare` requested: make_comps does raise the hard failure, but only
after the whole extraction pass — the trace already holds one directory
creation and one frame-extraction event per clip when the rejection
happens, so the rejection is not "before any extraction work". -/
theorem C8_counterexample :
    make_comps [("a", ⟨3, fun _ => "I"⟩), ("b", ⟨3, fun _ => "I"⟩),
        ("c", ⟨3, fun _ => "I"⟩)] "comps" 1 [] [] .OPENCV true false "" true
        [] true id (fun _ => 0) 10 =
      (some .magickTooManyClips,
       [.sampled, .mkdir ["comps"],
        .mkdir ["comps", "a"], .extracted "a" ["a_0.png"],
        .mkdir ["comps", "b"], .extracted "b" ["b_0.png"],
        .mkdir ["comps", "c"], .extracted "c" ["c_0.png"]]) ∧
    MCEvent.extracted "a" ["a_0.png"] ∈
      [MCEvent.sampled, .mkdir ["comps"],
       .mkdir ["comps", "a"], .extracted "a" ["a_0.png"],
       .mkdir ["comps", "b"], .extracted "b" ["b_0.png"],
       .mkdir ["comps", "c"], .extracted "c" ["c_0.png"]] := by
  exact ⟨by decide, by decide⟩

/-- Amended claim C8: when diffing is requested with more than two clips and
all earlier stages succeed, make_comps raises the hard two-clip failure
before any diff work (no diff event ever enters the trace), but only after
per-clip frame extraction has already run — the trace ends with one
directory-creation and one extraction event per clip. -/
theorem C8_magick_after_extraction (clips : List (String × Clip))
    (path : String) (num : ℕ) (frames : List ℕ) (slowpics : Bool)
    (collection_name : String) (is_public : Bool) (fs : List (List String))
    (magickAvailable : Bool) (readBytes : String → String) (g : ℕ → ℕ)
    (fuel : ℕ) (L m : ℕ)
    (hL : ∀ c ∈ clips, c.2.num_frames = L)
    (hne : clips ≠ [])
    (hnum : num ≤ L)
    (hmax : (finalize_samples (unconstrained_samples g L num) frames).max = some m)
    (hpath : [path] ∉ fs)
    (hsub : ∀ nm ∈ clips.map Prod.fst, [path, nm] ∉ fs)
    (hnodup : (clips.map Prod.fst).Nodup)
    (hcount : 2 < clips.length) :
    make_comps clips path num frames [] .OPENCV true slowpics collection_name
      is_public fs magickAvailable readBytes g fuel =
      (some .magickTooManyClips,
       .sampled :: .mkdir [path] ::
         extractEvents path
           (sortedFrames (finalize_samples (unconstrained_samples g L num)
             frames) (m + 1)) m clips) ∧
    (∀ d, MCEvent.diffed d ∉
      (MCEvent.sampled :: .mkdir [path] ::
        extractEvents path
          (sortedFrames (finalize_samples (unconstrained_samples g L num)
            frames) (m + 1)) m clips)) ∧
    (∀ nc ∈ clips,
      MCEvent.extracted nc.1
        ((sortedFrames (finalize_samples (unconstrained_samples g L num)
          frames) (m + 1)).map fun f => imageFileName nc.1 f m) ∈
        (MCEvent.sampled :: .mkdir [path] ::
          extractEvents path
            (sortedFrames (finalize_samples (unconstrained_samples g L num)
              frames) (m + 1)) m clips)) := by
  have hhead : (clips.map fun c => c.2.num_frames).headD 0 = L := by
    cases clips with
    | nil => exact absurd rfl hne
    | cons c rest =>
      rw [List.map_cons, List.headD_cons]
      exact hL c (List.mem_cons_self _ _)
  have hset : (clips.map fun c => c.2.num_frames).toFinset = {L} := by
    apply Finset.ext
    intro x
    simp only [List.mem_toFinset, List.mem_map, Finset.mem_singleton]
    constructor
    · rintro ⟨c, hc, rfl⟩
      exact hL c hc
    · intro hx
      cases clips with
      | nil => exact absurd rfl hne
      | cons c rest =>
        exact ⟨c, List.mem_cons_self _ _, by
          rw [hL c (List.mem_cons_self _ _), hx]⟩
  have hcard : ¬ ((clips.map fun c => c.2.num_frames).toFinset.card ≠ 1) := by
    rw [hset, Finset.card_singleton]
    omega
  have hsample : sampleStage clips L num [] g fuel =
      .ok (unconstrained_samples g L num) := by
    rw [sampleStage, if_neg (by simp), if_neg (by omega)]
  refine ⟨?_, ?_, ?_⟩
  · rw [make_comps, if_neg hcard, hhead, hsample, mcOnSample_ok]
    rw [hmax, mcOnMax_some]
    rw [if_neg hpath]
    rw [extractLoop_ok path
      (sortedFrames (finalize_samples (unconstrained_samples g L num) frames)
        (m + 1)) m fs clips [[path]] [.sampled, .mkdir [path]] []
      (by
        intro nm hnm
        refine ⟨hsub nm hnm, ?_⟩
        intro hmem
        rcases List.mem_cons.mp hmem with h | h
        · cases h
        · cases h)
      hnodup]
    rw [mcOnExtract_none]
    have hdiff : diffStage true magickAvailable path fs
        ((clips.map fun nc => [path, nc.1]).reverse ++ [[path]]) clips.length
        ((sortedFrames (finalize_samples (unconstrained_samples g L num) frames)
          (m + 1)).map fun f => diffFileName f m)
        ([.sampled, .mkdir [path]] ++
          extractEvents path
            (sortedFrames (finalize_samples (unconstrained_samples g L num)
              frames) (m + 1)) m clips) =
        (some .magickTooManyClips,
         [.sampled, .mkdir [path]] ++
           extractEvents path
             (sortedFrames (finalize_samples (unconstrained_samples g L num)
               frames) (m + 1)) m clips, false) := by
      simp only [diffStage, if_true]
      rw [if_pos hcount]
    rw [hdiff, mcOnDiff_err]
    rfl
  · intro d hd
    rcases List.mem_cons.mp hd with h | h
    · cases h
    · rcases List.mem_cons.mp h with h2 | h2
      · cases h2
      · exact extractEvents_no_diffed path _ m d clips h2
  · intro nc hnc
    exact List.mem_cons_of_mem _ (List.mem_cons_of_mem _
      (extractEvents_mem path _ m clips nc hnc))

/-- Witness for the amended C8 at three concrete clips. -/
theorem C8_magick_after_extraction_witness :
    make_comps [("a", ⟨3, fun _ => "I"⟩), ("b", ⟨3, fun _ => "I"⟩),
        ("c", ⟨3, fun _ => "I"⟩)] "x" 1 [] [] .OPENCV true false "" true
        [] true id (fun _ => 0) 10 =
      (some .magickTooManyClips,
       .sampled :: .mkdir ["x"] ::
         extractEvents "x"
           (sortedFrames (finalize_samples (unconstrained_samples (fun _ => 0) 3 1)
             []) (0 + 1)) 0
           [("a", ⟨3, fun _ => "I"⟩), ("b", ⟨3, fun _ => "I"⟩),
            ("c", ⟨3, fun _ => "I"⟩)]) :=
  (C8_magick_after_extraction
    [("a", ⟨3, fun _ => "I"⟩), ("b", ⟨3, fun _ => "I"⟩), ("c", ⟨3, fun _ => "I"⟩)]
    "x" 1 [] false "" true [] true id (fun _ => 0) 10 3 0
    (by
      intro c hc
      rcases List.mem_cons.mp hc with h | h
      · rw [h]
      · rcases List.mem_cons.mp h with h2 | h2
        · rw [h2]
        · rcases List.mem_cons.mp h2 with h3 | h3
          · rw [h3]
          · cases h3)
    (by intro h; cases h)
    (by omega)
    (by decide)
    (by intro h; cases h)
    (by
      intro nm hnm h
      cases h)
    (by decide)
    (by decide)).1

end Vard
